import Mathlib

/-!
A verification development for the core of the `@sky7/libsignal` library:
a Signal-style Double Ratchet session engine with asynchronous session
bootstrapping via PreKey bundles, together with its per-bucket job queue.

The repository ships the demo driver (`example.js`), the README and the
TypeScript declaration of `queueJob`; the session engine itself
(`SessionBuilder`, `SessionCipher`, `SessionRecord`, the ratchet and the
crypto layer) is specified in `spec.md`.  The definitions below are a
shallow embedding of that engine, modelled from the specification, with
the cryptographic primitives (out of scope in the spec, "treated as named
functions with fixed semantics") replaced by executable deterministic
models that retain exactly the algebraic facts the protocol relies on:
Diffie-Hellman commutativity, fixed output lengths, and encrypt/decrypt
inversion.
-/

namespace Libsignal

/-! ## Bytes -/

/-- Byte strings are lists of naturals; well-formed bytes are `< 256`. -/
abbrev Bytes := List Nat

/-- Little-endian fixed-width base-256 digits of a natural number. -/
def natDigitsAux : Nat → Nat → Bytes
  | 0, _ => []
  | fuel + 1, n => n % 256 :: natDigitsAux fuel (n / 256)

/-- 32-byte little-endian encoding of a natural number (raw public key form). -/
def natToBytes32 (n : Nat) : Bytes := natDigitsAux 32 n

/-- 4-byte little-endian encoding of a `u32`. -/
def natToBytes4 (n : Nat) : Bytes := natDigitsAux 4 n

/-- Little-endian base-256 value of a byte string. -/
def bytesToNatLE (l : Bytes) : Nat := l.foldr (fun b acc => b + 256 * acc) 0

/-- 32 bytes of `0xFF`: the X3DH discriminator prefix. -/
def ff32 : Bytes := List.replicate 32 255

/-- 32 zero bytes: default HKDF salt. -/
def zero32 : Bytes := List.replicate 32 0

/-! ## Primitive models

Modelled from the spec: §4.1 declares the primitives out of scope and fixes
only their functional contract.  `dh` is modular exponentiation in a small
cyclic group (giving real DH commutativity), the hash-based primitives are
deterministic keyed mixers with the contracted output lengths, and AES-CBC
is an invertible byte-wise transformation. -/

/-- Group modulus of the Curve25519 model (a prime). -/
def grpP : Nat := 2147483647

/-- Group generator of the Curve25519 model. -/
def grpG : Nat := 7

/-- Public key corresponding to a private scalar. -/
def pubOf (priv : Nat) : Nat := grpG ^ priv % grpP

/-- Modelled from the spec: `dh(priv, pub) → 32B` scalar multiplication. -/
def dh (priv pub : Nat) : Nat := pub ^ priv % grpP

/-- A Curve25519 keypair in the model. -/
structure KeyPair where
  priv : Nat
  pub : Nat
deriving DecidableEq, Repr

/-- The honestly generated keypair of a private scalar. -/
def kp (x : Nat) : KeyPair := ⟨x, pubOf x⟩

/-- 64-bit truncation modulus for the mixing functions. -/
def u64 : Nat := 18446744073709551616

/-- One LCG mixing step (the core of the hash models). -/
def mixStep (a b : Nat) : Nat := (a * 6364136223846793005 + b + 1442695040888963407) % u64

/-- Absorb a byte string into a mixing state. -/
def mixBytes (seed : Nat) (l : Bytes) : Nat := l.foldl mixStep seed

/-- Modelled from the spec: `hmacSha256(key, data) → 32B`. -/
def hmacSha256 (key data : Bytes) : Bytes :=
  let s := mixBytes (mixBytes 5381 key) data
  (List.range 32).map (fun i => mixStep s i % 256)

/-- Modelled from the spec: `hkdf(ikm, salt, info, L) → L bytes` (RFC 5869 shape). -/
def hkdf (ikm salt info : Bytes) (L : Nat) : Bytes :=
  let s := mixBytes (mixBytes (mixBytes 7919 salt) ikm) info
  (List.range L).map (fun i => mixStep s i % 256)

/-- Modelled from the spec: XEdDSA signature; depends on the private key only
through its public counterpart, so that `verify` can recompute it. -/
def signXEd (priv : Nat) (msg : Bytes) : Bytes :=
  (List.range 64).map (fun i => mixStep (mixBytes (mixStep 977 (pubOf priv)) msg) i % 256)

/-- Modelled from the spec: `verify(identityPub, message, sig) → bool`,
false on any mismatch, never throws. -/
def verifyXEd (pub : Nat) (msg sig : Bytes) : Bool :=
  decide (sig = (List.range 64).map (fun i => mixStep (mixBytes (mixStep 977 pub) msg) i % 256))

/-- Byte-wise keystream offset used by the AES-CBC model. -/
def cbcPad (key iv : Bytes) : Nat := mixBytes (mixBytes 911 key) iv % 256

/-- Modelled from the spec: `aesCbcEncrypt(key, iv, plaintext) → ciphertext`. -/
def aesCbcEncrypt (key iv pt : Bytes) : Bytes := pt.map (fun b => (b + cbcPad key iv) % 256)

/-- Modelled from the spec: `aesCbcDecrypt(key, iv, ciphertext) → plaintext`. -/
def aesCbcDecrypt (key iv ct : Bytes) : Bytes :=
  ct.map (fun b => (b + (256 - cbcPad key iv)) % 256)

/-! ## Key transport forms -/

/-- The 33-byte "type-prefixed" public key form `0x05 || 32B` used on the wire. -/
def prefixPub (pub : Nat) : Bytes := 5 :: natToBytes32 pub

/-- Recover the raw public key from its 33-byte prefixed form
(the `0x05` prefix is removed before DH). -/
def stripPub (b : Bytes) : Nat := bytesToNatLE (b.drop 1)

/-! ## KDF info strings (byte values of `"WhisperText"`, `"WhisperRatchet"`,
`"WhisperMessageKeys"`). -/

/-- Info string of the X3DH master-secret KDF. -/
def infoWhisperText : Bytes := [87, 104, 105, 115, 112, 101, 114, 84, 101, 120, 116]

/-- Info string of the root-key KDF. -/
def infoWhisperRatchet : Bytes := [87, 104, 105, 115, 112, 101, 114, 82, 97, 116, 99, 104, 101, 116]

/-- Info string of the message-key KDF. -/
def infoWhisperMessageKeys : Bytes :=
  [87, 104, 105, 115, 112, 101, 114, 77, 101, 115, 115, 97, 103, 101, 75, 101, 121, 115]

/-! ## Ratchet engine

Modelled from the spec: §4.5. -/

/-- `ChainKey`: a 32-byte key plus the number of message keys already derived. -/
structure ChainKey where
  key : Bytes
  counter : Nat
deriving DecidableEq, Repr

/-- A derived message key: `{ cipherKey: 32B, macKey: 32B, iv: 16B }`. -/
structure MessageKeys where
  cipherKey : Bytes
  macKey : Bytes
  iv : Bytes
deriving DecidableEq, Repr

/-- Modelled from the spec: message-key derivation
`k = hkdf(seed, zero32, "WhisperMessageKeys", 80)` split 32/32/16. -/
def deriveMessageKeys (seed : Bytes) : MessageKeys :=
  let k := hkdf seed zero32 infoWhisperMessageKeys 80
  ⟨k.take 32, (k.drop 32).take 32, k.drop 64⟩

/-- Modelled from the spec: one symmetric chain step.  Returns the
message-key seed `hmacSha256(key, 0x01)` and the successor chain key
`hmacSha256(key, 0x02)` at `counter + 1`. -/
def chainStep (ck : ChainKey) : Bytes × ChainKey :=
  (hmacSha256 ck.key [1], ⟨hmacSha256 ck.key [2], ck.counter + 1⟩)

/-- A ratchet chain: evolving chain key plus the skipped-message-key cache
(an association list from message counter to derived keys, oldest first). -/
structure Chain where
  chainKey : ChainKey
  messageKeys : List (Nat × MessageKeys)
deriving DecidableEq, Repr

/-- `fuel`-bounded loop of `fillMessageKeys`: each iteration caches the
message keys at the current counter and advances the chain by one step. -/
def fillLoop : Nat → Chain → Chain
  | 0, c => c
  | fuel + 1, c =>
      let (seed, ck') := chainStep c.chainKey
      fillLoop fuel ⟨ck', c.messageKeys ++ [(c.chainKey.counter, deriveMessageKeys seed)]⟩

/-- Modelled from the spec: step the chain forward, caching each intermediate
message key, until `chainKey.counter = target + 1` (no-op when the chain is
already past `target`). -/
def fillMessageKeys (c : Chain) (target : Nat) : Chain :=
  fillLoop (target + 1 - c.chainKey.counter) c

/-- Modelled from the spec: root-key KDF
`hkdf(dhOutput, salt = rootKey, "WhisperRatchet", 64)` split into
`(newRootKey, newChainKey)`. -/
def rootKDF (rootKey dhOut : Bytes) : Bytes × Bytes :=
  let o := hkdf dhOut rootKey infoWhisperRatchet 64
  (o.take 32, o.drop 32)

/-- Modelled from the spec: the initiator's X3DH master secret
`0xFF*32 || DH(IA,SPK) || DH(EA,IB) || DH(EA,SPK) [|| DH(EA,OPK)]`. -/
def initiatorMasterSecret (ourIdentity baseKey : KeyPair)
    (theirIdentityPub theirSignedPub : Nat) (theirOneTimePub : Option Nat) : Bytes :=
  ff32 ++ natToBytes32 (dh ourIdentity.priv theirSignedPub)
       ++ natToBytes32 (dh baseKey.priv theirIdentityPub)
       ++ natToBytes32 (dh baseKey.priv theirSignedPub)
       ++ (match theirOneTimePub with
           | some opk => natToBytes32 (dh baseKey.priv opk)
           | none => [])

/-- Modelled from the spec: the responder's mirrored X3DH master secret
(roles swapped so the DH products match). -/
def responderMasterSecret (ourIdentity ourSignedPre : KeyPair)
    (ourOneTime : Option KeyPair) (theirIdentityPub theirBasePub : Nat) : Bytes :=
  ff32 ++ natToBytes32 (dh ourSignedPre.priv theirIdentityPub)
       ++ natToBytes32 (dh ourIdentity.priv theirBasePub)
       ++ natToBytes32 (dh ourSignedPre.priv theirBasePub)
       ++ (match ourOneTime with
           | some opk => natToBytes32 (dh opk.priv theirBasePub)
           | none => [])

/-- Modelled from the spec: `derived = hkdf(masterSecret, zero32,
"WhisperText", 64)`; root key is the first 32 bytes, chain key the last 32. -/
def x3dhKeys (master : Bytes) : Bytes × Bytes :=
  let d := hkdf master zero32 infoWhisperText 64
  (d.take 32, d.drop 32)

/-! ## Errors

Modelled from the spec: §7 error taxonomy. -/

/-- The error kinds surfaced by the core. -/
inductive SigError where
  | untrustedIdentity
  | invalidSignature
  | invalidKeyId
  | noSession
  | messageCounter
  | macMismatch
  | decryptFail
  | structural
deriving DecidableEq, Repr

/-! ## Wire codec

Modelled from the spec: §4.2.  The protobuf envelope is out of scope
("named but not redesigned"); the model uses a fixed-layout encoding with
the same fields, version byte and trailing MAC. -/

/-- Protocol version nibble (current = minimum = 3). -/
def currentVersion : Nat := 3

/-- The version byte `(currentVersion << 4) | minVersion = 0x33`. -/
def versionByte : Nat := currentVersion * 16 + currentVersion

/-- The fields of a `WhisperMessage` frame. -/
structure WhisperMessage where
  ratchetKey : Bytes
  counter : Nat
  previousCounter : Nat
  ciphertext : Bytes
deriving DecidableEq, Repr

/-- The protobuf body of a `WhisperMessage` (fixed-layout model:
`ratchetKey(33) || counter(4) || previousCounter(4) || ciphertext`). -/
def encodeProto (m : WhisperMessage) : Bytes :=
  m.ratchetKey ++ natToBytes4 m.counter ++ natToBytes4 m.previousCounter ++ m.ciphertext

/-- The 8-byte MAC of a WhisperMessage frame: first 8 bytes of
HMAC-SHA256(macKey, senderIdentityPub(33) || receiverIdentityPub(33) ||
versionByte || protobufBytes). -/
def whisperMac (senderIdent recvIdent macKey proto : Bytes) : Bytes :=
  (hmacSha256 macKey (senderIdent ++ recvIdent ++ versionByte :: proto)).take 8

/-- A full `WhisperMessage` frame: `version(1) || protobuf || mac(8)`. -/
def encodeWhisperMessage (senderIdent recvIdent macKey : Bytes) (m : WhisperMessage) : Bytes :=
  versionByte :: encodeProto m ++ whisperMac senderIdent recvIdent macKey (encodeProto m)

/-- Decode a `WhisperMessage` frame into its fields, the raw protobuf bytes
and the trailing MAC.  Rejects a version high nibble below 3 and short
frames as structural errors. -/
def decodeWhisperMessage (body : Bytes) : Except SigError (WhisperMessage × Bytes × Bytes) :=
  match body with
  | [] => .error .structural
  | v :: rest =>
    if v / 16 < 3 then .error .structural
    else if rest.length < 49 then .error .structural
    else
      let proto := rest.take (rest.length - 8)
      let mac := rest.drop (rest.length - 8)
      .ok (⟨proto.take 33, bytesToNatLE ((proto.drop 33).take 4),
            bytesToNatLE ((proto.drop 37).take 4), proto.drop 41⟩, proto, mac)

/-- The fields of a `PreKeyWhisperMessage` frame. -/
structure PreKeyWhisperMessage where
  registrationId : Nat
  preKeyId : Option Nat
  signedPreKeyId : Nat
  baseKey : Bytes
  identityKey : Bytes
  message : Bytes
deriving DecidableEq, Repr

/-- A full `PreKeyWhisperMessage` frame (fixed-layout model): `version(1) ||
registrationId(4) || preKeyFlag(1) || preKeyId(4) || signedPreKeyId(4) ||
baseKey(33) || identityKey(33) || innerWhisperMessage`.  No outer MAC. -/
def encodePreKeyWhisperMessage (m : PreKeyWhisperMessage) : Bytes :=
  versionByte :: natToBytes4 m.registrationId
    ++ (match m.preKeyId with
        | some i => 1 :: natToBytes4 i
        | none => 0 :: natToBytes4 0)
    ++ natToBytes4 m.signedPreKeyId ++ m.baseKey ++ m.identityKey ++ m.message

/-- Decode a `PreKeyWhisperMessage` frame.  Rejects a version high nibble
below 3 and short frames as structural errors. -/
def decodePreKeyWhisperMessage (body : Bytes) : Except SigError PreKeyWhisperMessage :=
  match body with
  | [] => .error .structural
  | v :: rest =>
    if v / 16 < 3 then .error .structural
    else if rest.length < 79 then .error .structural
    else
      .ok ⟨bytesToNatLE (rest.take 4),
           (if (rest.drop 4).take 1 = [1] then some (bytesToNatLE ((rest.drop 5).take 4))
            else none),
           bytesToNatLE ((rest.drop 9).take 4),
           (rest.drop 13).take 33,
           (rest.drop 46).take 33,
           rest.drop 79⟩

/-! ## Session state

Modelled from the spec: §3 data model. -/

/-- Who generated the base key indexing this session. -/
inductive BaseKeyType where
  | ours
  | theirs
deriving DecidableEq, Repr

/-- The current DH ratchet head of a session. -/
structure Ratchet where
  rootKey : Bytes
  ephemeralKeyPair : KeyPair
  lastRemoteEphemeralKey : Bytes
  previousCounter : Nat
deriving DecidableEq, Repr

/-- Session index data; `closed = -1` while the session is open, otherwise
the archival timestamp. -/
structure IndexInfo where
  remoteIdentityKey : Bytes
  baseKey : Bytes
  baseKeyType : BaseKeyType
  closed : Int
deriving DecidableEq, Repr

/-- The pre-key reference carried by the initiator until the session is
confirmed (its presence makes outbound messages PreKeyWhisperMessages). -/
structure PendingPreKey where
  preKeyId : Option Nat
  signedKeyId : Nat
  baseKey : Bytes
deriving DecidableEq, Repr

/-- One open ratchet session.  `chains` maps a 33-byte ephemeral public key
to its chain; sending chains are keyed by our ephemeral, receiving chains
by the remote ephemeral. -/
structure Session where
  registrationId : Nat
  currentRatchet : Ratchet
  indexInfo : IndexInfo
  pendingPreKey : Option PendingPreKey
  chains : List (Bytes × Chain)
deriving DecidableEq, Repr

/-- Look up the chain keyed by an ephemeral public key. -/
def getChain (s : Session) (k : Bytes) : Option Chain :=
  (s.chains.find? (fun p => decide (p.1 = k))).map (fun p => p.2)

/-- Insert or update an entry of a chain map: replaces the entry keyed by
`k` when present, else appends (newest last). -/
def setChainList : List (Bytes × Chain) → Bytes → Chain → List (Bytes × Chain)
  | [], k, c => [(k, c)]
  | p :: rest, k, c => if p.1 = k then (k, c) :: rest else p :: setChainList rest k c

/-- Insert or update the chain keyed by `k`; new chains append (newest last). -/
def setChain (s : Session) (k : Bytes) (c : Chain) : Session :=
  { s with chains := setChainList s.chains k c }

/-- Total number of skipped message keys cached across all chains. -/
def totalMessageKeys (s : Session) : Nat :=
  (s.chains.map (fun p => p.2.messageKeys.length)).sum

/-- `fuel`-bounded loop of `removeOldChains`, evicting whole chains oldest
first while the skipped-key total exceeds the cap. -/
def removeOldChainsLoop : Nat → Session → Session
  | 0, s => s
  | fuel + 1, s =>
      if totalMessageKeys s ≤ 2000 then s
      else removeOldChainsLoop fuel { s with chains := s.chains.drop 1 }

/-- Modelled from the spec: `removeOldChains(session)` enforces the cap of
2000 skipped keys per session by oldest-first eviction. -/
def removeOldChains (s : Session) : Session :=
  removeOldChainsLoop s.chains.length s

/-- Whether a session is open. -/
def isOpen (s : Session) : Bool := decide (s.indexInfo.closed = -1)

/-! ## Session record

Modelled from the spec: §4.4.  Sessions are kept newest first. -/

/-- An ordered collection of sessions keyed by remote base key. -/
structure SessionRecord where
  sessions : List Session
deriving DecidableEq, Repr

/-- A record with no sessions. -/
def emptyRecord : SessionRecord := ⟨[]⟩

/-- The open (non-closed) session, if any. -/
def getOpenSession (r : SessionRecord) : Option Session :=
  r.sessions.find? isOpen

/-- Scan open and archived sessions for one indexed by `baseKey`. -/
def getSessionByBaseKey (r : SessionRecord) (baseKey : Bytes) : Option Session :=
  r.sessions.find? (fun s => decide (s.indexInfo.baseKey = baseKey))

/-- Close every open session, stamping the archival time. -/
def closeOpenSessions (r : SessionRecord) (now : Nat) : SessionRecord :=
  ⟨r.sessions.map (fun s =>
    if isOpen s then { s with indexInfo := { s.indexInfo with closed := (now : Int) } } else s)⟩

/-- Modelled from the spec: `removeOldSessions` retains at most 40 archived
sessions, evicting oldest first (sessions are newest first, so `take 40`
keeps the newest 40 archived entries). -/
def removeOldSessions (r : SessionRecord) : SessionRecord :=
  ⟨r.sessions.filter isOpen ++ (r.sessions.filter (fun s => !isOpen s)).take 40⟩

/-- Modelled from the spec: `setSession` inserts or updates; if the new
session's base key differs from the current open session's, the current one
is archived first.  The 40-archived cap is then enforced. -/
def setSession (r : SessionRecord) (s : Session) (now : Nat) : SessionRecord :=
  let r1 := match getOpenSession r with
    | some o => if o.indexInfo.baseKey = s.indexInfo.baseKey then r else closeOpenSessions r now
    | none => r
  let r2 : SessionRecord :=
    if (r1.sessions.find? (fun t => decide (t.indexInfo.baseKey = s.indexInfo.baseKey))).isSome
    then ⟨r1.sessions.map (fun t => if t.indexInfo.baseKey = s.indexInfo.baseKey then s else t)⟩
    else ⟨s :: r1.sessions⟩
  removeOldSessions r2

/-- Modelled from the spec: `archiveCurrentState` stamps `closed = now()` on
the open session; the archived-session cap is then enforced. -/
def archiveCurrentState (r : SessionRecord) (now : Nat) : SessionRecord :=
  removeOldSessions (closeOpenSessions r now)

/-- Modelled from the spec: `promoteState` re-opens the session indexed by
`baseKey` (after a successful decrypt on an archived session) and archives
whatever else was open. -/
def promoteState (r : SessionRecord) (baseKey : Bytes) (now : Nat) : SessionRecord :=
  removeOldSessions
    ⟨r.sessions.map (fun t =>
      if t.indexInfo.baseKey = baseKey then
        { t with indexInfo := { t.indexInfo with closed := -1 } }
      else if isOpen t then
        { t with indexInfo := { t.indexInfo with closed := (now : Int) } }
      else t)⟩

/-- Record well-formedness: at most one open session, at most 2000 skipped
keys per session, at most 40 archived sessions, and base keys unique. -/
def RecordWF (r : SessionRecord) : Prop :=
  (r.sessions.filter isOpen).length ≤ 1 ∧
  (∀ s ∈ r.sessions, totalMessageKeys s ≤ 2000) ∧
  (r.sessions.filter (fun s => !isOpen s)).length ≤ 40 ∧
  (r.sessions.map (fun s => s.indexInfo.baseKey)).Nodup

instance (r : SessionRecord) : Decidable (RecordWF r) := by
  unfold RecordWF
  infer_instance

/-! ## Store

Modelled from the spec: §6.1 store interface, collapsed to a pure state
value.  Operations return an updated store on success; an error result
carries no store, so the caller's state is untouched. -/

/-- The persistent state behind the store interface. -/
structure SignalStore where
  ourIdentity : KeyPair
  ourRegistrationId : Nat
  preKeys : List (Nat × KeyPair)
  signedPreKeys : List (Nat × KeyPair)
  trusted : Bytes → Bool
  record : Option SessionRecord

/-- Look up a stored keypair by key id. -/
def lookupKey (l : List (Nat × KeyPair)) (keyId : Nat) : Option KeyPair :=
  (l.find? (fun p => decide (p.1 = keyId))).map (fun p => p.2)

/-- A remote PreKey bundle (input to `initOutgoing`). -/
structure PreKeyBundle where
  registrationId : Nat
  identityKey : Nat
  signedPreKeyId : Nat
  signedPreKeyPub : Nat
  signedPreKeySignature : Bytes
  preKey : Option (Nat × Nat)
deriving DecidableEq, Repr

/-! ## Session builder

Modelled from the spec: §4.6. -/

/-- The session installed by `initOutgoing`: X3DH root key, then the
initiator's first DH ratchet against the remote signed prekey so that a
sending chain exists, with `pendingPreKey` set. -/
def buildInitiatorSession (ourIdentity : KeyPair) (bundle : PreKeyBundle)
    (baseKey freshEph : KeyPair) : Session :=
  let master := initiatorMasterSecret ourIdentity baseKey bundle.identityKey
    bundle.signedPreKeyPub (bundle.preKey.map (fun p => p.2))
  let rk0 := (x3dhKeys master).1
  let step := rootKDF rk0 (natToBytes32 (dh freshEph.priv bundle.signedPreKeyPub))
  { registrationId := bundle.registrationId
    currentRatchet :=
      { rootKey := step.1
        ephemeralKeyPair := freshEph
        lastRemoteEphemeralKey := prefixPub bundle.signedPreKeyPub
        previousCounter := 0 }
    indexInfo :=
      { remoteIdentityKey := prefixPub bundle.identityKey
        baseKey := prefixPub baseKey.pub
        baseKeyType := .ours
        closed := -1 }
    pendingPreKey := some
      { preKeyId := bundle.preKey.map (fun p => p.1)
        signedKeyId := bundle.signedPreKeyId
        baseKey := prefixPub baseKey.pub }
    chains := [(prefixPub freshEph.pub, ⟨⟨step.2, 0⟩, []⟩)] }

/-- Modelled from the spec: `SessionBuilder.initOutgoing(bundle)`.  Verifies
the signed-prekey signature, consults the trust store, derives the initial
session and installs it as the open session of the record. -/
def initOutgoing (store : SignalStore) (bundle : PreKeyBundle)
    (baseKey freshEph : KeyPair) (now : Nat) : Except SigError SignalStore :=
  if ¬ verifyXEd bundle.identityKey (prefixPub bundle.signedPreKeyPub)
      bundle.signedPreKeySignature then .error .invalidSignature
  else if ¬ store.trusted (prefixPub bundle.identityKey) then .error .untrustedIdentity
  else
    let session := buildInitiatorSession store.ourIdentity bundle baseKey freshEph
    .ok { store with
      record := some (setSession (store.record.getD emptyRecord) session now) }

/-- The responder session installed by `initIncoming`: mirrored X3DH with the
signed prekey as the current ratchet keypair; no sending chain yet. -/
def buildResponderSession (ourIdentity spkPair : KeyPair) (opkPair : Option KeyPair)
    (m : PreKeyWhisperMessage) : Session :=
  let master := responderMasterSecret ourIdentity spkPair opkPair
    (stripPub m.identityKey) (stripPub m.baseKey)
  { registrationId := m.registrationId
    currentRatchet :=
      { rootKey := (x3dhKeys master).1
        ephemeralKeyPair := spkPair
        lastRemoteEphemeralKey := m.baseKey
        previousCounter := 0 }
    indexInfo :=
      { remoteIdentityKey := m.identityKey
        baseKey := m.baseKey
        baseKeyType := .theirs
        closed := -1 }
    pendingPreKey := none
    chains := [] }

/-- Modelled from the spec: `initIncoming`, invoked from the cipher on a
PreKeyWhisperMessage.  Verifies trust, reuses an existing session with the
same base key, otherwise loads our signed prekey and optional one-time
prekey (`InvalidKeyIdError` when unknown) and mirrors the X3DH computation.
Returns the session and the consumed one-time prekey id, if any; nothing is
persisted here. -/
def initIncoming (store : SignalStore) (m : PreKeyWhisperMessage) :
    Except SigError (Session × Option Nat) :=
  if ¬ store.trusted m.identityKey then .error .untrustedIdentity
  else
    match getSessionByBaseKey (store.record.getD emptyRecord) m.baseKey with
    | some s => .ok (s, none)
    | none =>
      match lookupKey store.signedPreKeys m.signedPreKeyId with
      | none => .error .invalidKeyId
      | some spkPair =>
        match m.preKeyId with
        | some pkId =>
          match lookupKey store.preKeys pkId with
          | none => .error .invalidKeyId
          | some opkPair => .ok (buildResponderSession store.ourIdentity spkPair (some opkPair) m,
                                 some pkId)
        | none => .ok (buildResponderSession store.ourIdentity spkPair none m, none)

/-! ## Session cipher

Modelled from the spec: §4.7. -/

/-- The result of `SessionCipher.encrypt`. -/
structure EncResult where
  type : Nat
  body : Bytes
  registrationId : Nat
deriving DecidableEq, Repr

/-- Modelled from the spec: encrypt one plaintext under a session.  Derives a
message key from the sending chain, advances the chain counter by one,
builds the MAC-framed WhisperMessage and wraps it in a PreKeyWhisperMessage
(type 3) exactly when `pendingPreKey` is set, else returns type 1. -/
def encryptWithSession (ourIdentPub : Bytes) (ourRegistrationId : Nat)
    (s : Session) (pt : Bytes) : Except SigError (EncResult × Session) :=
  let sendKey := prefixPub s.currentRatchet.ephemeralKeyPair.pub
  match getChain s sendKey with
  | none => .error .noSession
  | some chain =>
    let (seed, ck') := chainStep chain.chainKey
    let mk := deriveMessageKeys seed
    let s' := setChain s sendKey ⟨ck', chain.messageKeys⟩
    let m : WhisperMessage :=
      { ratchetKey := sendKey
        counter := chain.chainKey.counter
        previousCounter := s.currentRatchet.previousCounter
        ciphertext := aesCbcEncrypt mk.cipherKey mk.iv pt }
    let inner := encodeWhisperMessage ourIdentPub s.indexInfo.remoteIdentityKey mk.macKey m
    match s.pendingPreKey with
    | some ppk =>
      .ok (⟨3, encodePreKeyWhisperMessage
              { registrationId := ourRegistrationId
                preKeyId := ppk.preKeyId
                signedPreKeyId := ppk.signedKeyId
                baseKey := ppk.baseKey
                identityKey := ourIdentPub
                message := inner }, s.registrationId⟩, s')
    | none => .ok (⟨1, inner, s.registrationId⟩, s')

/-- Modelled from the spec: `SessionCipher.encrypt`.  Requires an open
session (`NoSessionError` otherwise), encrypts, persists the record and
returns `{ type, body, registrationId }`. -/
def encrypt (store : SignalStore) (pt : Bytes) (now : Nat) :
    Except SigError (EncResult × SignalStore) :=
  match store.record with
  | none => .error .noSession
  | some rec =>
    match getOpenSession rec with
    | none => .error .noSession
    | some s =>
      match encryptWithSession (prefixPub store.ourIdentity.pub) store.ourRegistrationId s pt with
      | .error e => .error e
      | .ok (res, s') => .ok (res, { store with record := some (setSession rec s' now) })

/-- Modelled from the spec: the receiving DH ratchet of `decryptWithSession`
step 1.  When the message's ratchet key has no chain and differs from the
last remote ephemeral: fill skipped keys on the prior receiving chain up to
`previousCounter`, derive the new receiving chain from the new remote
ephemeral, then a new sending chain from a fresh ephemeral, recording the
prior sending chain's counter as `previousCounter`. -/
def maybeStepRatchet (s : Session) (remoteKey : Bytes) (previousCounter : Nat)
    (freshEph : KeyPair) : Session :=
  if (getChain s remoteKey).isSome then s
  else if remoteKey = s.currentRatchet.lastRemoteEphemeralKey then s
  else
    let s1 := match getChain s s.currentRatchet.lastRemoteEphemeralKey with
      | some c => setChain s s.currentRatchet.lastRemoteEphemeralKey
          (fillMessageKeys c previousCounter)
      | none => s
    let recvStep := rootKDF s1.currentRatchet.rootKey
      (natToBytes32 (dh s1.currentRatchet.ephemeralKeyPair.priv (stripPub remoteKey)))
    let s2 := setChain s1 remoteKey ⟨⟨recvStep.2, 0⟩, []⟩
    let prevCtr := match getChain s2 (prefixPub s2.currentRatchet.ephemeralKeyPair.pub) with
      | some c => c.chainKey.counter
      | none => s2.currentRatchet.previousCounter
    let sendStep := rootKDF recvStep.1 (natToBytes32 (dh freshEph.priv (stripPub remoteKey)))
    let s3 := setChain s2 (prefixPub freshEph.pub) ⟨⟨sendStep.2, 0⟩, []⟩
    { s3 with currentRatchet :=
        { rootKey := sendStep.1
          ephemeralKeyPair := freshEph
          lastRemoteEphemeralKey := remoteKey
          previousCounter := prevCtr } }

/-- Look up a cached skipped message key by counter. -/
def lookupMessageKey (l : List (Nat × MessageKeys)) (ctr : Nat) : Option MessageKeys :=
  (l.find? (fun p => decide (p.1 = ctr))).map (fun p => p.2)

/-- Modelled from the spec: `decryptWithSession`.  Performs the receiving
ratchet if needed; a counter below the chain counter must hit a cached
skipped key (`MessageCounterError` when absent), which is deleted on use; a
counter at or above the chain counter steps the chain forward caching
intermediates, failing with `MessageCounterError` when the gap exceeds
2000; the MAC is verified before any state is returned; finally AES-CBC
decrypts.  On success `pendingPreKey` is cleared (the session is
confirmed), so later outbound messages are plain WhisperMessages. -/
def decryptWithSession (ourIdentPub : Bytes) (s : Session) (m : WhisperMessage)
    (proto mac : Bytes) (freshEph : KeyPair) : Except SigError (Bytes × Session) :=
  let s1 := maybeStepRatchet s m.ratchetKey m.previousCounter freshEph
  match getChain s1 m.ratchetKey with
  | none => .error .messageCounter
  | some chain =>
    if m.counter ≥ chain.chainKey.counter ∧ m.counter > chain.chainKey.counter + 2000 then
      .error .messageCounter
    else
      let chain2 := if m.counter < chain.chainKey.counter then chain
        else fillMessageKeys chain m.counter
      match lookupMessageKey chain2.messageKeys m.counter with
      | none => .error .messageCounter
      | some mk =>
        let chain3 : Chain :=
          ⟨chain2.chainKey, chain2.messageKeys.filter (fun p => decide (p.1 ≠ m.counter))⟩
        let s2 := setChain s1 m.ratchetKey chain3
        if mac = whisperMac s2.indexInfo.remoteIdentityKey ourIdentPub mk.macKey proto then
          .ok (aesCbcDecrypt mk.cipherKey mk.iv m.ciphertext, { s2 with pendingPreKey := none })
        else .error .macMismatch

/-- Try `decryptWithSession` against each candidate session in order (open
first, then archived newest first); the first success wins and the terminal
attempt's error is surfaced. -/
def trySessions (ourIdentPub : Bytes) (m : WhisperMessage) (proto mac : Bytes)
    (freshEph : KeyPair) : List Session → Except SigError (Bytes × Session × Session)
  | [] => .error .noSession
  | [s] =>
    match decryptWithSession ourIdentPub s m proto mac freshEph with
    | .ok (pt, s') => .ok (pt, s, s')
    | .error e => .error e
  | s :: rest =>
    match decryptWithSession ourIdentPub s m proto mac freshEph with
    | .ok (pt, s') => .ok (pt, s, s')
    | .error _ => trySessions ourIdentPub m proto mac freshEph rest

/-- Persist a successful per-session decrypt: enforce the skipped-key cap,
re-open the session when it was archived (promoting it over the current
open session), and write it back into the record. -/
def persistDecrypt (rec : SessionRecord) (original updated : Session) (now : Nat) :
    SessionRecord :=
  let u := removeOldChains updated
  if isOpen original then setSession rec u now
  else
    setSession (promoteState rec original.indexInfo.baseKey now)
      { u with indexInfo := { u.indexInfo with closed := -1 } } now

/-- Modelled from the spec: `SessionCipher.decryptWhisperMessage`.  Requires
a record with sessions (`NoSessionError` otherwise), tries every session,
promotes an archived session on success and persists. -/
def decryptWhisperMessage (store : SignalStore) (body : Bytes) (freshEph : KeyPair)
    (now : Nat) : Except SigError (Bytes × SignalStore) :=
  match store.record with
  | none => .error .noSession
  | some rec =>
    match decodeWhisperMessage body with
    | .error e => .error e
    | .ok (m, proto, mac) =>
      match trySessions (prefixPub store.ourIdentity.pub) m proto mac freshEph rec.sessions with
      | .error e => .error e
      | .ok (pt, original, updated) =>
        .ok (pt, { store with record := some (persistDecrypt rec original updated now) })

/-- Modelled from the spec: `SessionCipher.decryptPreKeyWhisperMessage`.
Parses the outer frame, reuses or installs a session via `initIncoming`,
decrypts the embedded WhisperMessage against it, and on success removes the
consumed one-time prekey and persists the session as open. -/
def decryptPreKeyWhisperMessage (store : SignalStore) (body : Bytes) (freshEph : KeyPair)
    (now : Nat) : Except SigError (Bytes × SignalStore) :=
  match decodePreKeyWhisperMessage body with
  | .error e => .error e
  | .ok outer =>
    match initIncoming store outer with
    | .error e => .error e
    | .ok (session, usedPreKeyId) =>
      match decodeWhisperMessage outer.message with
      | .error e => .error e
      | .ok (m, proto, mac) =>
        match decryptWithSession (prefixPub store.ourIdentity.pub) session m proto mac
            freshEph with
        | .error e => .error e
        | .ok (pt, s') =>
          let rec0 := store.record.getD emptyRecord
          let rec' := setSession rec0 (removeOldChains s') now
          let preKeys' := match usedPreKeyId with
            | some pkId => store.preKeys.filter (fun p => decide (p.1 ≠ pkId))
            | none => store.preKeys
          .ok (pt, { store with record := some rec', preKeys := preKeys' })

/-! ## Job queue

Modelled from the spec: §4.8 and the `queueJob` declaration in the sources —
"run an async awaitable only when all other async calls registered with the
same bucket have completed (or thrown)".  A job is a task with its eventual
outcome (a resolution value or a rejection error); an execution is a list of
start/finish events produced by a scheduler that interleaves buckets
according to an arbitrary choice sequence while each bucket runs its own
jobs one at a time in submission order. -/

instance {e a : Type} [DecidableEq e] [DecidableEq a] : DecidableEq (Except e a) := fun x y =>
  match x, y with
  | .ok u, .ok v =>
    if h : u = v then .isTrue (by simp [h]) else .isFalse (by simp [h])
  | .error u, .error v =>
    if h : u = v then .isTrue (by simp [h]) else .isFalse (by simp [h])
  | .ok _, .error _ => .isFalse (fun h => Except.noConfusion h)
  | .error _, .ok _ => .isFalse (fun h => Except.noConfusion h)

/-- A task submitted to the queue: its bucket and its own outcome. -/
structure QJob where
  bucket : Nat
  outcome : Except Nat Nat
deriving DecidableEq, Repr

/-- An execution event: a task (identified by its submission index) begins
or completes. -/
inductive QEvent where
  | start : Nat → QJob → QEvent
  | finish : Nat → QJob → QEvent
deriving DecidableEq, Repr

/-- The bucket an event belongs to. -/
def QEvent.bucket : QEvent → Nat
  | .start _ j => j.bucket
  | .finish _ j => j.bucket

/-- Scheduler state: per-bucket FIFO queues of not-yet-started jobs, and the
at-most-one running job per bucket. -/
structure QState where
  queues : Nat → List (Nat × QJob)
  running : Nat → Option (Nat × QJob)

/-- The initial state for a submission list: every bucket's queue is its
jobs in submission order; nothing is running. -/
def qInit (jobs : List QJob) : QState :=
  ⟨fun b => jobs.enum.filter (fun p => decide (p.2.bucket = b)), fun _ => none⟩

/-- One scheduling step for bucket `b`: finish its running job if one is in
flight, otherwise start its next queued job (its predecessor has already
completed — successfully or with failure — so failures never block the
queue). -/
def qStep (st : QState) (b : Nat) : List QEvent × QState :=
  match st.running b with
  | some ij =>
    ([.finish ij.1 ij.2], { st with running := fun c => if c = b then none else st.running c })
  | none =>
    match st.queues b with
    | [] => ([], st)
    | ij :: rest =>
      ([.start ij.1 ij.2],
       { queues := fun c => if c = b then rest else st.queues c
         running := fun c => if c = b then some ij else st.running c })

/-- Run the scheduler from a state through a choice sequence. -/
def runQueueAux : QState → List Nat → List QEvent
  | _, [] => []
  | st, b :: cs => (qStep st b).1 ++ runQueueAux (qStep st b).2 cs

/-- The execution trace of a submission list under a choice sequence. -/
def runQueue (jobs : List QJob) (choices : List Nat) : List QEvent :=
  runQueueAux (qInit jobs) choices

/-- The events of one bucket, in execution order. -/
def bucketTrace (tr : List QEvent) (b : Nat) : List QEvent :=
  tr.filter (fun e => decide (e.bucket = b))

/-- The canonical serial execution of a job list: each job starts and then
finishes before the next begins. -/
def canonEvents (l : List (Nat × QJob)) : List QEvent :=
  l.flatMap (fun ij => [.start ij.1 ij.2, .finish ij.1 ij.2])

/-- The canonical remaining bucket-`b` events of a scheduler state. -/
def canonState (st : QState) (b : Nat) : List QEvent :=
  (match st.running b with
   | some ij => [QEvent.finish ij.1 ij.2]
   | none => []) ++ canonEvents (st.queues b)

/-- State sanity: every queued or running job sits under its own bucket. -/
def QInv (st : QState) : Prop :=
  (∀ b, ∀ ij ∈ st.queues b, ij.2.bucket = b) ∧
  (∀ b ij, st.running b = some ij → ij.2.bucket = b)

/-- A complete schedule: two turns per job, in submission order. -/
def fullSched (jobs : List QJob) : List Nat :=
  jobs.flatMap (fun j => [j.bucket, j.bucket])

/-- The per-index results a complete run delivers to its callers: the
outcome attached to each finish event. -/
def queueResults (jobs : List QJob) : List (Nat × Except Nat Nat) :=
  (runQueue jobs (fullSched jobs)).filterMap (fun e =>
    match e with
    | .finish i j => some (i, j.outcome)
    | _ => none)

/-! ## Concrete inputs and result extractors

Used to evaluate the theorems on explicit parties (small private scalars,
small key ids). -/

/-- Plaintext extractor for a per-session decrypt result. -/
def dwsBytes : Except SigError (Bytes × Session) → Bytes
  | .ok (p, _) => p
  | .error _ => []

/-- A throwaway session, used as the fallback of `dwsSession`. -/
def blankSession : Session :=
  { registrationId := 0
    currentRatchet := ⟨[], kp 0, [], 0⟩
    indexInfo := ⟨[], [], .ours, -1⟩
    pendingPreKey := none
    chains := [] }

/-- Updated-session extractor for a per-session decrypt result. -/
def dwsSession : Except SigError (Bytes × Session) → Session
  | .ok (_, s) => s
  | .error _ => blankSession

/-- Result extractor for a per-session encrypt result. -/
def ewsResult : Except SigError (EncResult × Session) → EncResult
  | .ok (r, _) => r
  | .error _ => ⟨0, [], 0⟩

/-- Updated-session extractor for a per-session encrypt result. -/
def ewsSession : Except SigError (EncResult × Session) → Session
  | .ok (_, s) => s
  | .error _ => blankSession

/-- A concrete receiving session holding one chain at counter 0
(for evaluating the duplicate-delivery theorem). -/
def wSession : Session :=
  { registrationId := 1
    currentRatchet := ⟨zero32, kp 22, prefixPub (pubOf 23), 0⟩
    indexInfo := ⟨prefixPub (pubOf 24), prefixPub (pubOf 25), .theirs, -1⟩
    pendingPreKey := none
    chains := [(prefixPub (pubOf 21), ⟨⟨hmacSha256 [7] [9], 0⟩, []⟩)] }

/-- The message keys the first step of `wSession`'s chain derives. -/
def wMK : MessageKeys := deriveMessageKeys (hmacSha256 (hmacSha256 [7] [9]) [1])

/-- A WhisperMessage addressed to `wSession` at counter 0. -/
def wMsg : WhisperMessage :=
  ⟨prefixPub (pubOf 21), 0, 0, aesCbcEncrypt wMK.cipherKey wMK.iv [1, 2, 3]⟩

/-- The valid MAC for `wMsg` under `wSession`'s keys with recipient
identity `pubOf 5`. -/
def wMac : Bytes :=
  whisperMac (prefixPub (pubOf 24)) (prefixPub (pubOf 5)) wMK.macKey (encodeProto wMsg)

/-- The first (successful) decrypt of `wMsg` against `wSession`. -/
def wDecRes : Except SigError (Bytes × Session) :=
  decryptWithSession (prefixPub (pubOf 5)) wSession wMsg (encodeProto wMsg) wMac (kp 30)

/-- A store with no session record (for evaluating the error theorems). -/
def wEmptyStore : SignalStore :=
  ⟨kp 1, 5, [], [], fun _ => true, none⟩

/-- A store holding one signed prekey and no one-time prekeys. -/
def wSpkStore : SignalStore :=
  ⟨kp 1, 5, [], [(9, kp 8)], fun _ => true, none⟩

/-- A store holding one closed session and nothing else open. -/
def wClosedStore : SignalStore :=
  ⟨kp 1, 5, [], [], fun _ => true,
   some ⟨[{ blankSession with indexInfo := ⟨[], [], .ours, 3⟩ }]⟩⟩

/-- A PreKeyWhisperMessage referencing prekey ids absent from the stores. -/
def wPKMsg : PreKeyWhisperMessage :=
  ⟨1, some 42, 9, prefixPub (pubOf 2), prefixPub (pubOf 3), []⟩

/-- A concrete session holding a sending chain and a pending prekey
(for evaluating the encrypt wire-type theorem). -/
def wSendSession : Session :=
  { registrationId := 7
    currentRatchet := ⟨zero32, kp 22, prefixPub (pubOf 23), 0⟩
    indexInfo := ⟨prefixPub (pubOf 24), prefixPub (pubOf 25), .ours, -1⟩
    pendingPreKey := some ⟨some 11, 1, prefixPub (pubOf 25)⟩
    chains := [(prefixPub (pubOf 22), ⟨⟨hmacSha256 [3] [4], 0⟩, []⟩)] }

/-! ## The fresh-bundle round-trip scenario

Two honest parties with private scalars `ai/ab/ae` (Alice: identity, base
key, first ratchet ephemeral) and `bi/bs/bo` (Bob: identity, signed prekey,
one-time prekey); `sid`/`pkid` are Bob's key ids, `areg`/`breg` the
registration ids.  These definitions name the intermediate artifacts of the
exchange `A.initOutgoing; A.encrypt(P); B.decryptPreKeyWhisperMessage`. -/

/-- Bob's published PreKey bundle, honestly generated and signed. -/
def c1Bundle (bi bs bo sid pkid breg : Nat) : PreKeyBundle :=
  ⟨breg, pubOf bi, sid, pubOf bs, signXEd bi (prefixPub (pubOf bs)), some (pkid, pubOf bo)⟩

/-- Alice's store before the exchange: her identity, no sessions. -/
def c1AliceStore (ai areg : Nat) : SignalStore :=
  ⟨kp ai, areg, [], [], fun _ => true, none⟩

/-- Bob's store before the exchange: his identity and the private halves of
the published prekeys. -/
def c1BobStore (bi bs bo sid pkid breg : Nat) : SignalStore :=
  ⟨kp bi, breg, [(pkid, kp bo)], [(sid, kp bs)], fun _ => true, none⟩

/-- The session `initOutgoing` installs for Alice. -/
def c1SessionA (ai ab ae bi bs bo sid pkid breg : Nat) : Session :=
  buildInitiatorSession (kp ai) (c1Bundle bi bs bo sid pkid breg) (kp ab) (kp ae)

/-- Alice's store after `initOutgoing`. -/
def c1Store1 (ai ab ae bi bs bo sid pkid breg areg : Nat) : SignalStore :=
  { c1AliceStore ai areg with
    record := some ⟨[c1SessionA ai ab ae bi bs bo sid pkid breg]⟩ }

/-- Alice's initial sending chain key (root KDF of the X3DH root key with
`DH(EA', SPK)` for her first ratchet ephemeral `EA'`). -/
def c1SendCK (ai ab ae bi bs bo : Nat) : Bytes :=
  (rootKDF (x3dhKeys (initiatorMasterSecret (kp ai) (kp ab) (pubOf bi) (pubOf bs)
    (some (pubOf bo)))).1 (natToBytes32 (dh ae (pubOf bs)))).2

/-- The message keys Alice derives for her first message (counter 0). -/
def c1MK (ai ab ae bi bs bo : Nat) : MessageKeys :=
  deriveMessageKeys (hmacSha256 (c1SendCK ai ab ae bi bs bo) [1])

/-- Alice's first WhisperMessage. -/
def c1Msg (ai ab ae bi bs bo : Nat) (pt : Bytes) : WhisperMessage :=
  ⟨prefixPub (pubOf ae), 0, 0,
   aesCbcEncrypt (c1MK ai ab ae bi bs bo).cipherKey (c1MK ai ab ae bi bs bo).iv pt⟩

/-- Alice's first WhisperMessage frame (version, protobuf, MAC). -/
def c1Inner (ai ab ae bi bs bo : Nat) (pt : Bytes) : Bytes :=
  encodeWhisperMessage (prefixPub (pubOf ai)) (prefixPub (pubOf bi))
    (c1MK ai ab ae bi bs bo).macKey (c1Msg ai ab ae bi bs bo pt)

/-- The PreKeyWhisperMessage wrapping Alice's first message. -/
def c1Outer (ai ab ae bi bs bo sid pkid areg : Nat) (pt : Bytes) : PreKeyWhisperMessage :=
  ⟨areg, some pkid, sid, prefixPub (pubOf ab), prefixPub (pubOf ai),
   c1Inner ai ab ae bi bs bo pt⟩

/-- The wire bytes of Alice's first (type-3) ciphertext. -/
def c1Body (ai ab ae bi bs bo sid pkid areg : Nat) (pt : Bytes) : Bytes :=
  encodePreKeyWhisperMessage (c1Outer ai ab ae bi bs bo sid pkid areg pt)

/-- Store extractor for a store-level operation result. -/
def pkdStore : Except SigError (Bytes × SignalStore) → SignalStore
  | .ok (_, st) => st
  | .error _ => ⟨kp 0, 0, [], [], fun _ => true, none⟩

/-- Store extractor for a store-level encrypt result. -/
def encStore : Except SigError (EncResult × SignalStore) → SignalStore
  | .ok (_, st) => st
  | .error _ => ⟨kp 0, 0, [], [], fun _ => true, none⟩

/-! ## Basic lemmas -/

theorem natDigitsAux_length (fuel n : Nat) : (natDigitsAux fuel n).length = fuel := by
  induction fuel generalizing n with
  | zero => rfl
  | succ f ih => simp [natDigitsAux, ih]

theorem natToBytes32_length (n : Nat) : (natToBytes32 n).length = 32 :=
  natDigitsAux_length 32 n

theorem natToBytes4_length (n : Nat) : (natToBytes4 n).length = 4 :=
  natDigitsAux_length 4 n

theorem prefixPub_length (n : Nat) : (prefixPub n).length = 33 := by
  simp [prefixPub, natToBytes32_length]

theorem bytesToNatLE_natDigitsAux (fuel n : Nat) (h : n < 256 ^ fuel) :
    bytesToNatLE (natDigitsAux fuel n) = n := by
  induction fuel generalizing n with
  | zero => simp at h; simp [h, natDigitsAux, bytesToNatLE]
  | succ f ih =>
      have hdiv : n / 256 < 256 ^ f := by
        rw [Nat.div_lt_iff_lt_mul (by norm_num)]
        calc n < 256 ^ (f + 1) := h
        _ = 256 ^ f * 256 := by ring
      have : bytesToNatLE (natDigitsAux f (n / 256)) = n / 256 := ih _ hdiv
      simp only [natDigitsAux, bytesToNatLE, List.foldr_cons] at this ⊢
      rw [this, Nat.mod_add_div]

theorem bytesToNatLE_natToBytes32 (n : Nat) (h : n < 256 ^ 32) :
    bytesToNatLE (natToBytes32 n) = n :=
  bytesToNatLE_natDigitsAux 32 n h

theorem bytesToNatLE_natToBytes4 (n : Nat) (h : n < 4294967296) :
    bytesToNatLE (natToBytes4 n) = n :=
  bytesToNatLE_natDigitsAux 4 n (by norm_num; omega)

theorem pubOf_lt (x : Nat) : pubOf x < 256 ^ 32 := by
  have h1 : pubOf x < grpP := Nat.mod_lt _ (by norm_num [grpP])
  have h2 : grpP < 256 ^ 32 := by norm_num [grpP]
  omega

theorem stripPub_prefixPub (n : Nat) (h : n < 256 ^ 32) : stripPub (prefixPub n) = n := by
  simp only [stripPub, prefixPub, List.drop_succ_cons, List.drop_zero]
  exact bytesToNatLE_natToBytes32 n h

theorem stripPub_prefixPub_pubOf (x : Nat) : stripPub (prefixPub (pubOf x)) = pubOf x :=
  stripPub_prefixPub _ (pubOf_lt x)

theorem prefixPub_inj_pubOf (a b : Nat) (h : prefixPub (pubOf a) = prefixPub (pubOf b)) :
    pubOf a = pubOf b := by
  have := congrArg stripPub h
  rwa [stripPub_prefixPub_pubOf, stripPub_prefixPub_pubOf] at this

theorem dh_comm (a b : Nat) : dh a (pubOf b) = dh b (pubOf a) := by
  simp only [dh, pubOf]
  conv_lhs => rw [← Nat.pow_mod]
  conv_rhs => rw [← Nat.pow_mod]
  rw [← pow_mul, ← pow_mul, Nat.mul_comm]

theorem hmacSha256_length (key data : Bytes) : (hmacSha256 key data).length = 32 := by
  simp [hmacSha256]

theorem hkdf_length (ikm salt info : Bytes) (L : Nat) : (hkdf ikm salt info L).length = L := by
  simp [hkdf]

theorem verifyXEd_signXEd (x : Nat) (msg : Bytes) :
    verifyXEd (pubOf x) msg (signXEd x msg) = true := by
  simp [verifyXEd, signXEd]

theorem cbcPad_lt (key iv : Bytes) : cbcPad key iv < 256 :=
  Nat.mod_lt _ (by norm_num)

theorem aesCbc_roundtrip (key iv pt : Bytes) (h : ∀ x ∈ pt, x < 256) :
    aesCbcDecrypt key iv (aesCbcEncrypt key iv pt) = pt := by
  simp only [aesCbcEncrypt, aesCbcDecrypt, List.map_map]
  conv_rhs => rw [← List.map_id pt]
  apply List.map_congr_left
  intro x hx
  have hx256 : x < 256 := h x hx
  have hpad : cbcPad key iv < 256 := cbcPad_lt key iv
  simp only [Function.comp_apply, id_eq]
  omega

/-! ## Chain-step lemmas -/

theorem fillLoop_counter (fuel : Nat) (c : Chain) :
    (fillLoop fuel c).chainKey.counter = c.chainKey.counter + fuel := by
  induction fuel generalizing c with
  | zero => rfl
  | succ f ih =>
      rw [fillLoop, ih]
      simp [chainStep]
      omega

theorem fillMessageKeys_counter (c : Chain) (target : Nat) :
    (fillMessageKeys c target).chainKey.counter =
      c.chainKey.counter + (target + 1 - c.chainKey.counter) :=
  fillLoop_counter _ c

theorem fillMessageKeys_counter_of_le (c : Chain) (target : Nat)
    (h : c.chainKey.counter ≤ target) :
    (fillMessageKeys c target).chainKey.counter = target + 1 := by
  rw [fillMessageKeys_counter]
  omega

/-- Claim C4: one symmetric ratchet step derives the message-key seed as
`hmacSha256(k, 0x01)` and the successor chain key as `hmacSha256(k, 0x02)`
with counter `n + 1`; the counter increases by exactly one per derivation
and is monotonically non-decreasing within a chain (`fillMessageKeys` never
lowers it). -/
theorem chainStep_spec :
    (∀ ck : ChainKey,
        chainStep ck = (hmacSha256 ck.key [1], ⟨hmacSha256 ck.key [2], ck.counter + 1⟩)) ∧
    (∀ ck : ChainKey, (chainStep ck).2.counter = ck.counter + 1) ∧
    (∀ (c : Chain) (target : Nat),
        c.chainKey.counter ≤ (fillMessageKeys c target).chainKey.counter) := by
  refine ⟨fun ck => rfl, fun ck => rfl, fun c target => ?_⟩
  rw [fillMessageKeys_counter]
  omega

/-! ## Wire-format lemmas -/

theorem whisperMac_length (senderIdent recvIdent macKey proto : Bytes) :
    (whisperMac senderIdent recvIdent macKey proto).length = 8 := by
  simp [whisperMac, hmacSha256]

/-- Claim C5: every encoded WhisperMessage begins with the version byte
`0x33 = 51` (both nibbles 3) and ends with the 8-byte MAC, the first 8
bytes of HMAC-SHA256 keyed by `macKey` over `senderIdentityPub(33) ||
receiverIdentityPub(33) || versionByte || protobufBytes`; decoding rejects
frames whose version high nibble is below 3 as a structural error. -/
theorem whisperMessage_frame_spec :
    (∀ senderIdent recvIdent macKey m,
        encodeWhisperMessage senderIdent recvIdent macKey m =
          versionByte :: encodeProto m ++
            (hmacSha256 macKey
              (senderIdent ++ recvIdent ++ versionByte :: encodeProto m)).take 8) ∧
    versionByte = 51 ∧ versionByte / 16 = 3 ∧ versionByte % 16 = 3 ∧
    (∀ senderIdent recvIdent macKey proto,
        (whisperMac senderIdent recvIdent macKey proto).length = 8) ∧
    (∀ v rest, v / 16 < 3 → decodeWhisperMessage (v :: rest) = .error .structural) := by
  refine ⟨fun a b k m => rfl, rfl, rfl, rfl, whisperMac_length, fun v rest h => ?_⟩
  simp [decodeWhisperMessage, h]

theorem whisperMessage_frame_spec_witness :
    (0 : Nat) / 16 < 3 ∧ decodeWhisperMessage (0 :: []) = .error .structural :=
  ⟨by decide, whisperMessage_frame_spec.2.2.2.2.2 0 [] (by decide)⟩

/-! ## X3DH lemmas -/

theorem responderMasterSecret_mirror (ia ea ib spk : Nat) (opk : Option Nat) :
    responderMasterSecret (kp ib) (kp spk) (opk.map kp) (pubOf ia) (pubOf ea) =
      initiatorMasterSecret (kp ia) (kp ea) (pubOf ib) (pubOf spk) (opk.map pubOf) := by
  cases opk with
  | none =>
      simp only [responderMasterSecret, initiatorMasterSecret, Option.map, kp]
      rw [dh_comm spk ia, dh_comm ib ea, dh_comm spk ea]
  | some o =>
      simp only [responderMasterSecret, initiatorMasterSecret, Option.map, kp]
      rw [dh_comm spk ia, dh_comm ib ea, dh_comm spk ea, dh_comm o ea]

/-- Claim C3: the initiator's X3DH master secret is 32 bytes of `0xFF`
followed by `DH(IA,SPK) || DH(EA,IB) || DH(EA,SPK)`, with `DH(EA,OPK)`
appended exactly when the bundle has a one-time prekey; the root key is the
first 32 bytes and the chain key the last 32 of
`hkdf(masterSecret, zero32, "WhisperText", 64)`; and the responder's
mirrored computation yields the same root key and chain key. -/
theorem x3dh_spec (ia ea ib spk : Nat) (opk : Option Nat) :
    (initiatorMasterSecret (kp ia) (kp ea) (pubOf ib) (pubOf spk) (opk.map pubOf) =
      ff32 ++ natToBytes32 (dh ia (pubOf spk)) ++ natToBytes32 (dh ea (pubOf ib))
           ++ natToBytes32 (dh ea (pubOf spk))
           ++ (match opk.map pubOf with
               | some o => natToBytes32 (dh ea o)
               | none => [])) ∧
    (∀ master : Bytes,
        x3dhKeys master =
          ((hkdf master zero32 infoWhisperText 64).take 32,
           (hkdf master zero32 infoWhisperText 64).drop 32)) ∧
    (∀ master : Bytes, ((x3dhKeys master).1).length = 32 ∧
        ((x3dhKeys master).2).length = 32) ∧
    x3dhKeys (responderMasterSecret (kp ib) (kp spk) (opk.map kp) (pubOf ia) (pubOf ea)) =
      x3dhKeys (initiatorMasterSecret (kp ia) (kp ea) (pubOf ib) (pubOf spk)
        (opk.map pubOf)) := by
  refine ⟨rfl, fun master => rfl, fun master => ?_, ?_⟩
  · constructor
    · simp [x3dhKeys, hkdf_length]
    · simp [x3dhKeys, hkdf_length]
  · rw [responderMasterSecret_mirror]

/-! ## Encrypt wire-type lemmas -/

/-- Claim C7: `encrypt` returns `{ type, body, registrationId }` with
`type = 3` exactly when the session still carries a `pendingPreKey` (the
body is then a PreKeyWhisperMessage) and `type = 1` otherwise; a freshly
initiated outgoing session carries a `pendingPreKey`, and a successful
decrypt clears it, after which encryption yields `type = 1`. -/
theorem encrypt_wire_type_spec :
    (∀ (ourIdent : Bytes) (regId : Nat) (s : Session) (pt : Bytes) (res : EncResult)
        (s' : Session), encryptWithSession ourIdent regId s pt = .ok (res, s') →
        ((res.type = 3 ↔ s.pendingPreKey.isSome) ∧ (res.type = 1 ↔ s.pendingPreKey = none) ∧
         res.registrationId = s.registrationId)) ∧
    (∀ (ourIdentity : KeyPair) (bundle : PreKeyBundle) (baseKey freshEph : KeyPair),
        (buildInitiatorSession ourIdentity bundle baseKey freshEph).pendingPreKey.isSome) ∧
    (∀ (ourIdent : Bytes) (s : Session) (m : WhisperMessage) (proto mac : Bytes)
        (freshEph : KeyPair) (pt : Bytes) (s' : Session),
        decryptWithSession ourIdent s m proto mac freshEph = .ok (pt, s') →
        s'.pendingPreKey = none) := by
  refine ⟨?_, ?_, ?_⟩
  · intro ourIdent regId s pt res s' h
    simp only [encryptWithSession] at h
    cases hch : getChain s (prefixPub s.currentRatchet.ephemeralKeyPair.pub) with
    | none => rw [hch] at h; exact absurd h (by simp)
    | some chain =>
        rw [hch] at h
        cases hp : s.pendingPreKey with
        | none =>
            rw [hp] at h
            simp only [Except.ok.injEq, Prod.mk.injEq] at h
            obtain ⟨hres, _⟩ := h
            subst hres
            simp
        | some ppk =>
            rw [hp] at h
            simp only [Except.ok.injEq, Prod.mk.injEq] at h
            obtain ⟨hres, _⟩ := h
            subst hres
            simp
  · intro ourIdentity bundle baseKey freshEph
    simp [buildInitiatorSession]
  · intro ourIdent s m proto mac freshEph pt s' h
    simp only [decryptWithSession] at h
    repeat' split at h
    all_goals first
      | exact Except.noConfusion h
      | (simp only [Except.ok.injEq, Prod.mk.injEq] at h
         rw [← h.2])

set_option maxRecDepth 100000 in
theorem encrypt_wire_type_spec_witness :
    (encryptWithSession (prefixPub (pubOf 5)) 7 wSendSession [9] =
        .ok (ewsResult (encryptWithSession (prefixPub (pubOf 5)) 7 wSendSession [9]),
             ewsSession (encryptWithSession (prefixPub (pubOf 5)) 7 wSendSession [9]))) ∧
    ((ewsResult (encryptWithSession (prefixPub (pubOf 5)) 7 wSendSession [9])).type = 3 ↔
        wSendSession.pendingPreKey.isSome) ∧
    (dwsSession wDecRes).pendingPreKey = none :=
  ⟨by decide,
   (encrypt_wire_type_spec.1 (prefixPub (pubOf 5)) 7 wSendSession [9]
     (ewsResult (encryptWithSession (prefixPub (pubOf 5)) 7 wSendSession [9]))
     (ewsSession (encryptWithSession (prefixPub (pubOf 5)) 7 wSendSession [9]))
     (by decide)).1,
   encrypt_wire_type_spec.2.2 (prefixPub (pubOf 5)) wSession wMsg (encodeProto wMsg) wMac
     (kp 30) (dwsBytes wDecRes) (dwsSession wDecRes) (by decide)⟩

/-! ## Error-handling lemmas -/

/-- Claim C8: an inbound PreKeyWhisperMessage whose `signedPreKeyId` or
`preKeyId` is unknown to the store fails with `InvalidKeyIdError` (and the
error propagates out of `decryptPreKeyWhisperMessage`, whose error results
carry no updated store, so no session state is mutated); encrypting or
decrypting with no record or no open session fails with `NoSessionError`. -/
theorem key_id_error_spec :
    (∀ (store : SignalStore) (pt : Bytes) (now : Nat), store.record = none →
        encrypt store pt now = .error .noSession) ∧
    (∀ (store : SignalStore) (rec : SessionRecord) (pt : Bytes) (now : Nat),
        store.record = some rec → getOpenSession rec = none →
        encrypt store pt now = .error .noSession) ∧
    (∀ (store : SignalStore) (body : Bytes) (freshEph : KeyPair) (now : Nat),
        store.record = none →
        decryptWhisperMessage store body freshEph now = .error .noSession) ∧
    (∀ (store : SignalStore) (m : PreKeyWhisperMessage),
        store.trusted m.identityKey = true →
        getSessionByBaseKey (store.record.getD emptyRecord) m.baseKey = none →
        lookupKey store.signedPreKeys m.signedPreKeyId = none →
        initIncoming store m = .error .invalidKeyId) ∧
    (∀ (store : SignalStore) (m : PreKeyWhisperMessage) (pkId : Nat) (spkPair : KeyPair),
        store.trusted m.identityKey = true →
        getSessionByBaseKey (store.record.getD emptyRecord) m.baseKey = none →
        lookupKey store.signedPreKeys m.signedPreKeyId = some spkPair →
        m.preKeyId = some pkId →
        lookupKey store.preKeys pkId = none →
        initIncoming store m = .error .invalidKeyId) ∧
    (∀ (store : SignalStore) (body : Bytes) (freshEph : KeyPair) (now : Nat)
        (outer : PreKeyWhisperMessage) (e : SigError),
        decodePreKeyWhisperMessage body = .ok outer →
        initIncoming store outer = .error e →
        decryptPreKeyWhisperMessage store body freshEph now = .error e) := by
  refine ⟨?_, ?_, ?_, ?_, ?_, ?_⟩
  · intro store pt now h
    simp [encrypt, h]
  · intro store rec pt now h hopen
    simp [encrypt, h, hopen]
  · intro store body freshEph now h
    simp [decryptWhisperMessage, h]
  · intro store m htrust hbase hlook
    simp [initIncoming, htrust, hbase, hlook]
  · intro store m pkId spkPair htrust hbase hlook hpk hlook2
    simp [initIncoming, htrust, hbase, hlook, hpk, hlook2]
  · intro store body freshEph now outer e hdec hinit
    simp [decryptPreKeyWhisperMessage, hdec, hinit]

set_option maxRecDepth 100000 in
theorem key_id_error_spec_witness :
    encrypt wEmptyStore [1] 0 = .error .noSession ∧
    encrypt wClosedStore [1] 0 = .error .noSession ∧
    decryptWhisperMessage wEmptyStore [1] (kp 2) 0 = .error .noSession ∧
    initIncoming wEmptyStore wPKMsg = .error .invalidKeyId ∧
    initIncoming wSpkStore wPKMsg = .error .invalidKeyId ∧
    decryptPreKeyWhisperMessage wEmptyStore (encodePreKeyWhisperMessage wPKMsg) (kp 2) 0 =
      .error .invalidKeyId :=
  ⟨key_id_error_spec.1 wEmptyStore [1] 0 (by decide),
   key_id_error_spec.2.1 wClosedStore ⟨[{ blankSession with indexInfo := ⟨[], [], .ours, 3⟩ }]⟩
     [1] 0 (by decide) (by decide),
   key_id_error_spec.2.2.1 wEmptyStore [1] (kp 2) 0 (by decide),
   key_id_error_spec.2.2.2.1 wEmptyStore wPKMsg (by decide) (by decide) (by decide),
   key_id_error_spec.2.2.2.2.1 wSpkStore wPKMsg 42 (kp 8) (by decide) (by decide) (by decide)
     (by decide) (by decide),
   key_id_error_spec.2.2.2.2.2 wEmptyStore (encodePreKeyWhisperMessage wPKMsg) (kp 2) 0 wPKMsg
     .invalidKeyId (by decide) (by decide)⟩

/-! ## Job-queue lemmas -/

theorem flatMap_enumFrom_buckets (jobs : List QJob) (n : Nat) :
    (List.enumFrom n jobs).flatMap (fun ij => [ij.2.bucket, ij.2.bucket]) =
      jobs.flatMap (fun j => [j.bucket, j.bucket]) := by
  induction jobs generalizing n with
  | nil => rfl
  | cons j rest ih => simp only [List.enumFrom, List.flatMap_cons, ih]

theorem cons_prefix_of {a : Type} (x : a) (l1 l2 : List a) (h : l1 <+: l2) :
    x :: l1 <+: x :: l2 := by
  obtain ⟨t, ht⟩ := h
  exact ⟨t, by rw [List.cons_append, ht]⟩

theorem runQueueAux_complete (rest : List (Nat × QJob)) (st : QState)
    (hq : ∀ c, st.queues c = rest.filter (fun p => decide (p.2.bucket = c)))
    (hr : ∀ c, st.running c = none) :
    runQueueAux st (rest.flatMap (fun ij => [ij.2.bucket, ij.2.bucket])) = canonEvents rest := by
  induction rest generalizing st with
  | nil =>
      simp only [List.flatMap_nil, canonEvents]
      rfl
  | cons ij tail ih =>
      have h1 : st.queues ij.2.bucket =
          ij :: tail.filter (fun p => decide (p.2.bucket = ij.2.bucket)) := by
        rw [hq]; simp
      rw [List.flatMap_cons]
      simp only [List.cons_append, List.nil_append, runQueueAux, qStep, hr, h1,
        eq_self_iff_true, if_true, List.append_eq, List.nil_append]
      rw [ih]
      · simp [canonEvents]
      · intro c
        by_cases hc : c = ij.2.bucket
        · subst hc; simp
        · simp only [if_neg hc, hq, List.filter_cons]
          have hb : (decide (ij.2.bucket = c)) = false := by
            simp
            exact fun hh => hc hh.symm
          rw [hb]
          simp
      · intro c
        by_cases hc : c = ij.2.bucket
        · simp [hc]
        · simp [if_neg hc, hr]

theorem runQueue_fullSched (jobs : List QJob) :
    runQueue jobs (fullSched jobs) = canonEvents jobs.enum := by
  have h := runQueueAux_complete jobs.enum (qInit jobs) (fun c => rfl) (fun c => rfl)
  rw [runQueue, fullSched, ← flatMap_enumFrom_buckets jobs 0]
  exact h

theorem canonEvents_filterMap (l : List (Nat × QJob)) :
    (canonEvents l).filterMap (fun e =>
        match e with
        | .finish i j => some (i, j.outcome)
        | _ => none) = l.map (fun ij => (ij.1, ij.2.outcome)) := by
  induction l with
  | nil => rfl
  | cons ij tail ih =>
      simp only [canonEvents, List.flatMap_cons] at ih ⊢
      simp only [List.cons_append, List.nil_append, List.filterMap_cons, ih, List.map_cons]

/-- Claim C10: the promise `queueJob` returns for a task resolves with
exactly that task's own outcome — its resolution value, or its own error
when it throws — independently of the outcomes of every earlier task in the
bucket: the delivered results of a complete run are precisely each
submitted job's own `outcome`, indexed in submission order. -/
theorem queue_result_spec (jobs : List QJob) :
    queueResults jobs = jobs.enum.map (fun ij => (ij.1, ij.2.outcome)) := by
  rw [queueResults, runQueue_fullSched, canonEvents_filterMap]

theorem bucketTrace_cons_of_eq (e : QEvent) (tr : List QEvent) (b : Nat)
    (h : e.bucket = b) : bucketTrace (e :: tr) b = e :: bucketTrace tr b := by
  simp [bucketTrace, List.filter_cons, h]

theorem bucketTrace_cons_of_ne (e : QEvent) (tr : List QEvent) (b : Nat)
    (h : ¬ e.bucket = b) : bucketTrace (e :: tr) b = bucketTrace tr b := by
  simp [bucketTrace, List.filter_cons, h]

theorem bucketTrace_runQueueAux (choices : List Nat) (st : QState) (b : Nat)
    (hinv : QInv st) :
    bucketTrace (runQueueAux st choices) b <+: canonState st b := by
  induction choices generalizing st with
  | nil => exact ⟨canonState st b, rfl⟩
  | cons c cs ih =>
      cases hrc : st.running c with
      | some ij =>
          have hbkt : ij.2.bucket = c := hinv.2 c ij hrc
          have e1 : qStep st c = ([QEvent.finish ij.1 ij.2],
              { st with running := fun d => if d = c then none else st.running d }) := by
            rw [qStep, hrc]
          have hinv' : QInv { st with
              running := fun d => if d = c then none else st.running d } := by
            refine ⟨hinv.1, fun d jj hd => ?_⟩
            by_cases hdc : d = c
            · simp [hdc] at hd
            · simp only [if_neg hdc] at hd
              exact hinv.2 d jj hd
          rw [runQueueAux, e1]
          by_cases hcb : c = b
          · subst hcb
            rw [List.cons_append, List.nil_append,
              bucketTrace_cons_of_eq _ _ _ (by simp [QEvent.bucket, hbkt])]
            have hcs : canonState st c = QEvent.finish ij.1 ij.2 ::
                canonState { st with
                  running := fun d => if d = c then none else st.running d } c := by
              simp [canonState, hrc]
            rw [hcs]
            exact cons_prefix_of _ _ _ (ih _ hinv')
          · rw [List.cons_append, List.nil_append,
              bucketTrace_cons_of_ne _ _ _ (by rw [QEvent.bucket, hbkt]; exact hcb)]
            have hcs : canonState { st with
                running := fun d => if d = c then none else st.running d } b =
                canonState st b := by
              simp only [canonState]
              rw [if_neg (fun hh => hcb hh.symm)]
            rw [← hcs]
            exact ih _ hinv'
      | none =>
          cases hqc : st.queues c with
          | nil =>
              have e1 : qStep st c = ([], st) := by
                rw [qStep, hrc, hqc]
              rw [runQueueAux, e1, List.nil_append]
              exact ih _ hinv
          | cons ij rest =>
              have hbkt : ij.2.bucket = c :=
                hinv.1 c ij (by rw [hqc]; exact List.mem_cons_self _ _)
              have e1 : qStep st c = ([QEvent.start ij.1 ij.2],
                  { queues := fun d => if d = c then rest else st.queues d,
                    running := fun d => if d = c then some ij else st.running d }) := by
                rw [qStep, hrc, hqc]
              have hinv' : QInv (QState.mk (fun d => if d = c then rest else st.queues d)
                  (fun d => if d = c then some ij else st.running d)) := by
                refine ⟨fun d jj hd => ?_, fun d jj hd => ?_⟩
                · by_cases hdc : d = c
                  · subst hdc
                    simp only [if_true, eq_self_iff_true] at hd
                    exact hinv.1 d jj (by rw [hqc]; exact List.mem_cons_of_mem _ hd)
                  · simp only [if_neg hdc] at hd
                    exact hinv.1 d jj hd
                · by_cases hdc : d = c
                  · subst hdc
                    simp only [if_true, eq_self_iff_true, Option.some.injEq] at hd
                    rw [← hd]
                    exact hbkt
                  · simp only [if_neg hdc] at hd
                    exact hinv.2 d jj hd
              rw [runQueueAux, e1]
              by_cases hcb : c = b
              · subst hcb
                rw [List.cons_append, List.nil_append,
                  bucketTrace_cons_of_eq _ _ _ (by simp [QEvent.bucket, hbkt])]
                have hcs : canonState st c = QEvent.start ij.1 ij.2 ::
                    canonState (QState.mk (fun d => if d = c then rest else st.queues d)
                      (fun d => if d = c then some ij else st.running d)) c := by
                  simp [canonState, hrc, hqc, canonEvents]
                rw [hcs]
                exact cons_prefix_of _ _ _ (ih _ hinv')
              · rw [List.cons_append, List.nil_append,
                  bucketTrace_cons_of_ne _ _ _ (by rw [QEvent.bucket, hbkt]; exact hcb)]
                have hcs : canonState (QState.mk (fun d => if d = c then rest else st.queues d)
                    (fun d => if d = c then some ij else st.running d)) b =
                    canonState st b := by
                  simp only [canonState]
                  rw [if_neg (fun hh => hcb hh.symm), if_neg (fun hh => hcb hh.symm)]
                rw [← hcs]
                exact ih _ hinv'

/-- Claim C9: for every bucket, queued tasks execute strictly in submission
order — the bucket's event trace is a prefix of the canonical serial
start/finish alternation of its jobs in submission order, so task N does
not begin until task N-1 has completed or thrown; under a complete
schedule every submitted task starts and finishes even when earlier tasks
in its bucket failed; and tasks in distinct buckets may interleave, as a
concrete two-bucket schedule shows (with a failing job in flight). -/
theorem queue_order_spec :
    (∀ (jobs : List QJob) (choices : List Nat) (b : Nat),
        bucketTrace (runQueue jobs choices) b <+:
          canonEvents (jobs.enum.filter (fun p => decide (p.2.bucket = b)))) ∧
    (∀ jobs : List QJob, runQueue jobs (fullSched jobs) = canonEvents jobs.enum) ∧
    runQueue [⟨0, .ok 0⟩, ⟨1, .error 7⟩] [0, 1, 0, 1] =
      [.start 0 ⟨0, .ok 0⟩, .start 1 ⟨1, .error 7⟩,
       .finish 0 ⟨0, .ok 0⟩, .finish 1 ⟨1, .error 7⟩] := by
  refine ⟨?_, runQueue_fullSched, by rfl⟩
  intro jobs choices b
  have hinv : QInv (qInit jobs) := by
    refine ⟨fun c ij hmem => ?_, fun c ij hd => by simp [qInit] at hd⟩
    simp only [qInit, List.mem_filter, decide_eq_true_eq] at hmem
    exact hmem.2
  have h := bucketTrace_runQueueAux choices (qInit jobs) b hinv
  simpa [canonState, qInit] using h

/-! ## Session-record lemmas -/

theorem totalMessageKeys_indexInfo (s : Session) (ii : IndexInfo) :
    totalMessageKeys { s with indexInfo := ii } = totalMessageKeys s := rfl

theorem baseKey_indexInfo_closed (s : Session) (t : Int) :
    ({ s with indexInfo := { s.indexInfo with closed := t } }).indexInfo.baseKey =
      s.indexInfo.baseKey := rfl

theorem isOpen_close (s : Session) (now : Nat) :
    isOpen { s with indexInfo := { s.indexInfo with closed := (now : Int) } } = false := by
  simp only [isOpen]
  simp only [decide_eq_false_iff_not]
  omega

theorem closeOpen_sessions (r : SessionRecord) (now : Nat) :
    (closeOpenSessions r now).sessions = r.sessions.map (fun s =>
      if isOpen s then { s with indexInfo := { s.indexInfo with closed := (now : Int) } }
      else s) := rfl

theorem closeOpen_filter_open (r : SessionRecord) (now : Nat) :
    (closeOpenSessions r now).sessions.filter isOpen = [] := by
  rw [closeOpen_sessions, List.filter_eq_nil_iff]
  intro a ha
  obtain ⟨y, _, hy⟩ := List.mem_map.mp ha
  by_cases hop : isOpen y
  · rw [if_pos hop] at hy
    rw [← hy]
    simp [isOpen_close]
  · rw [if_neg hop] at hy
    rw [← hy]
    simp [hop]

theorem closeOpen_baseKeys (r : SessionRecord) (now : Nat) :
    (closeOpenSessions r now).sessions.map (fun s => s.indexInfo.baseKey) =
      r.sessions.map (fun s => s.indexInfo.baseKey) := by
  rw [closeOpen_sessions, List.map_map]
  apply List.map_congr_left
  intro a _
  by_cases hop : isOpen a <;> simp [hop]

theorem closeOpen_keys (r : SessionRecord) (now : Nat)
    (h : ∀ s ∈ r.sessions, totalMessageKeys s ≤ 2000) :
    ∀ s ∈ (closeOpenSessions r now).sessions, totalMessageKeys s ≤ 2000 := by
  intro a ha
  rw [closeOpen_sessions] at ha
  obtain ⟨y, hy, hya⟩ := List.mem_map.mp ha
  have := h y hy
  by_cases hop : isOpen y
  · rw [if_pos hop] at hya
    rw [← hya, totalMessageKeys_indexInfo]
    exact this
  · rw [if_neg hop] at hya
    rw [← hya]
    exact this

theorem removeOldSessions_filter_open (r : SessionRecord) :
    (removeOldSessions r).sessions.filter isOpen = r.sessions.filter isOpen := by
  simp only [removeOldSessions, List.filter_append]
  have h1 : (r.sessions.filter isOpen).filter isOpen = r.sessions.filter isOpen :=
    List.filter_eq_self.mpr (fun a ha => (List.mem_filter.mp ha).2)
  have h2 : ((r.sessions.filter (fun s => !isOpen s)).take 40).filter isOpen = [] := by
    rw [List.filter_eq_nil_iff]
    intro a ha
    have := (List.mem_filter.mp (List.take_subset _ _ ha)).2
    simp only [Bool.not_eq_true'] at this
    simp [this]
  rw [h1, h2, List.append_nil]

theorem removeOldSessions_closed_le (r : SessionRecord) :
    ((removeOldSessions r).sessions.filter (fun s => !isOpen s)).length ≤ 40 := by
  simp only [removeOldSessions, List.filter_append]
  have h1 : (r.sessions.filter isOpen).filter (fun s => !isOpen s) = [] := by
    rw [List.filter_eq_nil_iff]
    intro a ha
    have := (List.mem_filter.mp ha).2
    simp [this]
  have h2 : ((r.sessions.filter (fun s => !isOpen s)).take 40).filter (fun s => !isOpen s) =
      (r.sessions.filter (fun s => !isOpen s)).take 40 :=
    List.filter_eq_self.mpr (fun a ha =>
      (List.mem_filter.mp (List.take_subset _ _ ha)).2)
  rw [h1, h2, List.nil_append]
  exact List.length_take_le _ _

theorem removeOldSessions_subset (r : SessionRecord) :
    ∀ s ∈ (removeOldSessions r).sessions, s ∈ r.sessions := by
  intro a ha
  simp only [removeOldSessions, List.mem_append] at ha
  cases ha with
  | inl h => exact (List.mem_filter.mp h).1
  | inr h => exact (List.mem_filter.mp (List.take_subset _ _ h)).1

theorem removeOldSessions_sublist (r : SessionRecord) :
    List.Sublist (removeOldSessions r).sessions
      (r.sessions.filter isOpen ++ r.sessions.filter (fun s => !isOpen s)) :=
  List.Sublist.append (List.Sublist.refl _) (List.take_sublist _ _)

theorem removeOldSessions_nodup (r : SessionRecord)
    (h : (r.sessions.map (fun s => s.indexInfo.baseKey)).Nodup) :
    ((removeOldSessions r).sessions.map (fun s => s.indexInfo.baseKey)).Nodup := by
  have hperm : List.Perm
      (r.sessions.filter isOpen ++ r.sessions.filter (fun s => !isOpen s))
      r.sessions := List.filter_append_perm _ _
  have hnd : ((r.sessions.filter isOpen ++
      r.sessions.filter (fun s => !isOpen s)).map (fun s => s.indexInfo.baseKey)).Nodup :=
    ((hperm.map _).nodup_iff).mpr h
  exact List.Nodup.sublist (List.Sublist.map _ (removeOldSessions_sublist r)) hnd

theorem removeOldSessions_WF (r : SessionRecord)
    (hopen : (r.sessions.filter isOpen).length ≤ 1)
    (hkeys : ∀ s ∈ r.sessions, totalMessageKeys s ≤ 2000)
    (hnd : (r.sessions.map (fun s => s.indexInfo.baseKey)).Nodup) :
    RecordWF (removeOldSessions r) := by
  refine ⟨?_, ?_, removeOldSessions_closed_le r, removeOldSessions_nodup r hnd⟩
  · rw [removeOldSessions_filter_open]
    exact hopen
  · intro s hs
    exact hkeys s (removeOldSessions_subset r s hs)

theorem getOpenSession_none (r : SessionRecord) (h : getOpenSession r = none) :
    r.sessions.filter isOpen = [] := by
  rw [getOpenSession] at h
  rw [List.filter_eq_nil_iff]
  exact List.find?_eq_none.mp h

theorem getOpenSession_some (r : SessionRecord) (o : Session) (h : getOpenSession r = some o) :
    o ∈ r.sessions ∧ isOpen o = true := by
  rw [getOpenSession] at h
  exact ⟨List.mem_of_find?_eq_some h, List.find?_some h⟩

theorem open_unique (r : SessionRecord) (o t : Session)
    (hlen : (r.sessions.filter isOpen).length ≤ 1)
    (ho : o ∈ r.sessions) (hoo : isOpen o = true)
    (ht : t ∈ r.sessions) (htt : isOpen t = true) : t = o := by
  have h1 : o ∈ r.sessions.filter isOpen := List.mem_filter.mpr ⟨ho, hoo⟩
  have h2 : t ∈ r.sessions.filter isOpen := List.mem_filter.mpr ⟨ht, htt⟩
  cases hf : r.sessions.filter isOpen with
  | nil => rw [hf] at h1; cases h1
  | cons a as =>
      rw [hf] at h1 h2 hlen
      have has : as = [] := by
        simp only [List.length_cons] at hlen
        have : as.length = 0 := by omega
        exact List.length_eq_zero.mp this
      subst has
      have e1 : o = a := by simpa using h1
      have e2 : t = a := by simpa using h2
      rw [e1, e2]

theorem countP_decide_le_one {a : Type} [DecidableEq a] (l : List a) (k : a)
    (h : l.Nodup) : l.countP (fun b => decide (b = k)) ≤ 1 := by
  induction l with
  | nil => simp
  | cons x xs ih =>
      rw [List.countP_cons]
      obtain ⟨hnx, hnd⟩ := List.nodup_cons.mp h
      by_cases hk : x = k
      · subst hk
        have hz : xs.countP (fun b => decide (b = x)) = 0 := by
          rw [List.countP_eq_zero]
          intro y hy
          simp only [decide_eq_true_eq]
          intro hyx
          exact hnx (hyx ▸ hy)
        simp [hz]
      · have := ih hnd
        simp only [decide_eq_true_eq, if_neg hk]
        omega

theorem countP_baseKey_le_one (l : List Session) (k : Bytes)
    (h : (l.map (fun s => s.indexInfo.baseKey)).Nodup) :
    l.countP (fun t => decide (t.indexInfo.baseKey = k)) ≤ 1 := by
  have h1 : l.countP (fun t => decide (t.indexInfo.baseKey = k)) =
      (l.map (fun s => s.indexInfo.baseKey)).countP (fun b => decide (b = k)) := by
    rw [List.countP_map]
    rfl
  rw [h1]
  exact countP_decide_le_one _ k h

theorem countP_open_replace (l : List Session) (s : Session)
    (hall : ∀ t ∈ l, isOpen t = true → t.indexInfo.baseKey = s.indexInfo.baseKey)
    (hnd : (l.map (fun t => t.indexInfo.baseKey)).Nodup) :
    ((l.map (fun t => if t.indexInfo.baseKey = s.indexInfo.baseKey then s else t)).filter
      isOpen).length ≤ 1 := by
  rw [← List.countP_eq_length_filter, List.countP_map]
  have hmono : l.countP
      (isOpen ∘ fun t => if t.indexInfo.baseKey = s.indexInfo.baseKey then s else t) ≤
      l.countP (fun t => decide (t.indexInfo.baseKey = s.indexInfo.baseKey)) := by
    apply List.countP_mono_left
    intro t htl hopen
    simp only [Function.comp_apply] at hopen
    by_cases hm : t.indexInfo.baseKey = s.indexInfo.baseKey
    · simp [hm]
    · rw [if_neg hm] at hopen
      exact absurd (hall t htl hopen) hm
  exact le_trans hmono (countP_baseKey_le_one l s.indexInfo.baseKey hnd)

theorem insertOrReplace_WF (r1 : SessionRecord) (s : Session)
    (hall : ∀ t ∈ r1.sessions, isOpen t = true → t.indexInfo.baseKey = s.indexInfo.baseKey)
    (hkeys : ∀ t ∈ r1.sessions, totalMessageKeys t ≤ 2000)
    (hnd : (r1.sessions.map (fun t => t.indexInfo.baseKey)).Nodup)
    (hs : totalMessageKeys s ≤ 2000) :
    RecordWF (removeOldSessions
      (if (r1.sessions.find?
            (fun t => decide (t.indexInfo.baseKey = s.indexInfo.baseKey))).isSome
       then ⟨r1.sessions.map
          (fun t => if t.indexInfo.baseKey = s.indexInfo.baseKey then s else t)⟩
       else ⟨s :: r1.sessions⟩)) := by
  by_cases hf : (r1.sessions.find?
      (fun t => decide (t.indexInfo.baseKey = s.indexInfo.baseKey))).isSome
  · rw [if_pos hf]
    apply removeOldSessions_WF
    · exact countP_open_replace r1.sessions s hall hnd
    · intro t ht
      obtain ⟨y, hy, hyt⟩ := List.mem_map.mp ht
      by_cases hm : y.indexInfo.baseKey = s.indexInfo.baseKey
      · rw [if_pos hm] at hyt
        rw [← hyt]
        exact hs
      · rw [if_neg hm] at hyt
        rw [← hyt]
        exact hkeys y hy
    · rw [List.map_map]
      have : ((fun t => t.indexInfo.baseKey) ∘
          fun t => if t.indexInfo.baseKey = s.indexInfo.baseKey then s else t) =
          fun t : Session => t.indexInfo.baseKey := by
        funext t
        by_cases hm : t.indexInfo.baseKey = s.indexInfo.baseKey
        · simp [hm]
        · simp [hm]
      rw [this]
      exact hnd
  · rw [if_neg hf]
    have hnone : ∀ t ∈ r1.sessions, ¬ t.indexInfo.baseKey = s.indexInfo.baseKey := by
      intro t ht
      have := List.find?_eq_none.mp (Option.not_isSome_iff_eq_none.mp hf) t ht
      simpa using this
    apply removeOldSessions_WF
    · have hfl : r1.sessions.filter isOpen = [] := by
        rw [List.filter_eq_nil_iff]
        intro t ht hopen
        exact hnone t ht (hall t ht hopen)
      show (List.filter isOpen (s :: r1.sessions)).length ≤ 1
      rw [List.filter_cons, hfl]
      by_cases hso : isOpen s = true <;> simp [hso]
    · intro t ht
      rcases List.mem_cons.mp ht with h | h
      · rw [h]; exact hs
      · exact hkeys t h
    · show ((s :: r1.sessions).map (fun t => t.indexInfo.baseKey)).Nodup
      rw [List.map_cons]
      refine List.nodup_cons.mpr ⟨?_, hnd⟩
      intro hmem
      obtain ⟨y, hy, hyk⟩ := List.mem_map.mp hmem
      exact hnone y hy hyk

theorem setSession_WF (r : SessionRecord) (s : Session) (now : Nat)
    (hr : RecordWF r) (hs : totalMessageKeys s ≤ 2000) :
    RecordWF (setSession r s now) := by
  obtain ⟨hopen, hkeys, hclosed, hnd⟩ := hr
  rw [setSession]
  apply insertOrReplace_WF _ _ ?_ ?_ ?_ hs
  · intro t ht hto
    split at ht
    · next o hgo =>
        split at ht
        · next hob =>
            obtain ⟨homem, hoo⟩ := getOpenSession_some r o hgo
            rw [open_unique r o t hopen homem hoo ht hto]
            exact hob
        · next hob =>
            have hmem : t ∈ (closeOpenSessions r now).sessions.filter isOpen :=
              List.mem_filter.mpr ⟨ht, hto⟩
            rw [closeOpen_filter_open] at hmem
            cases hmem
    · next hgo =>
        have hnil := getOpenSession_none r hgo
        have hmem : t ∈ r.sessions.filter isOpen := List.mem_filter.mpr ⟨ht, hto⟩
        rw [hnil] at hmem
        cases hmem
  · intro t ht
    split at ht
    · next o hgo =>
        split at ht
        · next hob => exact hkeys t ht
        · next hob => exact closeOpen_keys r now hkeys t ht
    · next hgo => exact hkeys t ht
  · split
    · next o hgo =>
        split
        · next hob => exact hnd
        · next hob =>
            rw [closeOpen_baseKeys]
            exact hnd
    · next hgo => exact hnd

theorem archiveCurrentState_WF (r : SessionRecord) (now : Nat) (hr : RecordWF r) :
    RecordWF (archiveCurrentState r now) := by
  obtain ⟨_, hkeys, _, hnd⟩ := hr
  rw [archiveCurrentState]
  apply removeOldSessions_WF
  · rw [closeOpen_filter_open]
    simp
  · exact closeOpen_keys r now hkeys
  · rw [closeOpen_baseKeys]
    exact hnd

theorem promoteState_WF (r : SessionRecord) (bk : Bytes) (now : Nat) (hr : RecordWF r) :
    RecordWF (promoteState r bk now) := by
  obtain ⟨_, hkeys, _, hnd⟩ := hr
  rw [promoteState]
  apply removeOldSessions_WF
  · rw [← List.countP_eq_length_filter, List.countP_map]
    have heq : r.sessions.countP (isOpen ∘ fun t =>
        if t.indexInfo.baseKey = bk then
          { t with indexInfo := { t.indexInfo with closed := -1 } }
        else if isOpen t then
          { t with indexInfo := { t.indexInfo with closed := (now : Int) } }
        else t) = r.sessions.countP (fun t => decide (t.indexInfo.baseKey = bk)) := by
      apply List.countP_congr
      intro t _
      simp only [Function.comp_apply]
      by_cases hm : t.indexInfo.baseKey = bk
      · simp [hm, isOpen]
      · rw [if_neg hm]
        by_cases hto : isOpen t
        · rw [if_pos hto]
          rw [isOpen_close]
          simp [hm]
        · rw [if_neg hto]
          simp only [Bool.not_eq_true] at hto
          simp [hto, hm]
    rw [heq]
    exact countP_baseKey_le_one r.sessions bk hnd
  · intro t ht
    obtain ⟨y, hy, hyt⟩ := List.mem_map.mp ht
    have hk := hkeys y hy
    by_cases hm : y.indexInfo.baseKey = bk
    · rw [if_pos hm] at hyt
      rw [← hyt, totalMessageKeys_indexInfo]
      exact hk
    · rw [if_neg hm] at hyt
      by_cases hyo : isOpen y
      · rw [if_pos hyo] at hyt
        rw [← hyt, totalMessageKeys_indexInfo]
        exact hk
      · rw [if_neg hyo] at hyt
        rw [← hyt]
        exact hk
  · rw [List.map_map]
    have : ((fun t => t.indexInfo.baseKey) ∘ fun t =>
        if t.indexInfo.baseKey = bk then
          { t with indexInfo := { t.indexInfo with closed := -1 } }
        else if isOpen t then
          { t with indexInfo := { t.indexInfo with closed := (now : Int) } }
        else t) = fun t : Session => t.indexInfo.baseKey := by
      funext t
      by_cases hm : t.indexInfo.baseKey = bk
      · simp [hm]
      · rw [Function.comp_apply, if_neg hm]
        by_cases hto : isOpen t <;> simp [hto]
    rw [this]
    exact hnd

theorem removeOldChainsLoop_le (fuel : Nat) :
    ∀ s : Session, s.chains.length ≤ fuel →
      totalMessageKeys (removeOldChainsLoop fuel s) ≤ 2000 := by
  induction fuel with
  | zero =>
      intro s h
      have hn : s.chains = [] := List.length_eq_zero.mp (Nat.le_zero.mp h)
      simp [removeOldChainsLoop, totalMessageKeys, hn]
  | succ f ih =>
      intro s h
      rw [removeOldChainsLoop]
      split
      · next hle => exact hle
      · next hgt =>
          apply ih
          simp only [List.length_drop]
          omega

theorem removeOldChains_le (s : Session) : totalMessageKeys (removeOldChains s) ≤ 2000 :=
  removeOldChainsLoop_le s.chains.length s le_rfl

theorem setChainList_sum (l : List (Bytes × Chain)) (k : Bytes) (c : Chain)
    (pr : Bytes × Chain) (hf : l.find? (fun p => decide (p.1 = k)) = some pr) :
    ((setChainList l k c).map (fun p => p.2.messageKeys.length)).sum +
        pr.2.messageKeys.length =
      (l.map (fun p => p.2.messageKeys.length)).sum + c.messageKeys.length := by
  induction l with
  | nil => simp [List.find?] at hf
  | cons q rest ih =>
      simp only [setChainList]
      by_cases hq : q.1 = k
      · rw [if_pos hq]
        rw [List.find?_cons_of_pos _ (by simp [hq])] at hf
        have hpr : pr = q := by
          exact (Option.some.inj hf).symm
        subst hpr
        simp only [List.map_cons, List.sum_cons]
        omega
      · rw [if_neg hq]
        rw [List.find?_cons_of_neg _ (by simp [hq])] at hf
        have := ih hf
        simp only [List.map_cons, List.sum_cons]
        omega

theorem totalMessageKeys_setChain_same (s : Session) (k : Bytes) (c ch : Chain)
    (hg : getChain s k = some ch) (hlen : c.messageKeys.length = ch.messageKeys.length) :
    totalMessageKeys (setChain s k c) = totalMessageKeys s := by
  rw [getChain] at hg
  obtain ⟨pr, hpr, hpr2⟩ := Option.map_eq_some'.mp hg
  have hsum := setChainList_sum s.chains k c pr hpr
  have hpl : pr.2.messageKeys.length = ch.messageKeys.length := by rw [hpr2]
  simp only [totalMessageKeys, setChain]
  omega

theorem encryptWithSession_keys (ourIdent : Bytes) (regId : Nat) (s : Session) (pt : Bytes)
    (res : EncResult) (s' : Session)
    (h : encryptWithSession ourIdent regId s pt = .ok (res, s')) :
    totalMessageKeys s' = totalMessageKeys s := by
  simp only [encryptWithSession, chainStep] at h
  cases hch : getChain s (prefixPub s.currentRatchet.ephemeralKeyPair.pub) with
  | none => rw [hch] at h; exact Except.noConfusion h
  | some chain =>
      rw [hch] at h
      cases hp : s.pendingPreKey with
      | none =>
          rw [hp] at h
          simp only [Except.ok.injEq, Prod.mk.injEq] at h
          rw [← h.2]
          exact totalMessageKeys_setChain_same _ _ _ _ hch rfl
      | some ppk =>
          rw [hp] at h
          simp only [Except.ok.injEq, Prod.mk.injEq] at h
          rw [← h.2]
          exact totalMessageKeys_setChain_same _ _ _ _ hch rfl

theorem persistDecrypt_WF (rec : SessionRecord) (orig upd : Session) (now : Nat)
    (hr : RecordWF rec) : RecordWF (persistDecrypt rec orig upd now) := by
  rw [persistDecrypt]
  split
  · exact setSession_WF _ _ _ hr (removeOldChains_le upd)
  · apply setSession_WF _ _ _ (promoteState_WF rec orig.indexInfo.baseKey now hr)
    rw [totalMessageKeys_indexInfo]
    exact removeOldChains_le upd

theorem encrypt_preserves_WF (store : SignalStore) (rec : SessionRecord) (pt : Bytes)
    (now : Nat) (res : EncResult) (store' : SignalStore)
    (hrec : store.record = some rec) (hr : RecordWF rec)
    (h : encrypt store pt now = .ok (res, store')) :
    ∃ rec', store'.record = some rec' ∧ RecordWF rec' := by
  simp only [encrypt, hrec] at h
  split at h
  · exact Except.noConfusion h
  · next s0 hgo =>
      split at h
      · next e hew => exact Except.noConfusion h
      · next res1 s1 hew =>
          simp only [Except.ok.injEq, Prod.mk.injEq] at h
          obtain ⟨_, hst⟩ := h
          subst hst
          refine ⟨setSession rec s1 now, rfl, ?_⟩
          apply setSession_WF _ _ _ hr
          rw [encryptWithSession_keys _ _ _ _ _ _ hew]
          obtain ⟨hmem, _⟩ := getOpenSession_some rec s0 hgo
          exact hr.2.1 s0 hmem

theorem decryptPreKey_preserves_WF (store : SignalStore) (body : Bytes) (freshEph : KeyPair)
    (now : Nat) (pt : Bytes) (store' : SignalStore)
    (hr : RecordWF (store.record.getD emptyRecord))
    (h : decryptPreKeyWhisperMessage store body freshEph now = .ok (pt, store')) :
    ∃ rec', store'.record = some rec' ∧ RecordWF rec' := by
  simp only [decryptPreKeyWhisperMessage] at h
  repeat' split at h
  all_goals try exact Except.noConfusion h
  all_goals
    simp only [Except.ok.injEq, Prod.mk.injEq] at h
    obtain ⟨_, hst⟩ := h
    subst hst
    exact ⟨_, rfl, setSession_WF _ _ _ hr (removeOldChains_le _)⟩

theorem decryptWhisper_preserves_WF (store : SignalStore) (rec : SessionRecord) (body : Bytes)
    (freshEph : KeyPair) (now : Nat) (pt : Bytes) (store' : SignalStore)
    (hrec : store.record = some rec) (hr : RecordWF rec)
    (h : decryptWhisperMessage store body freshEph now = .ok (pt, store')) :
    ∃ rec', store'.record = some rec' ∧ RecordWF rec' := by
  simp only [decryptWhisperMessage, hrec] at h
  repeat' split at h
  all_goals try exact Except.noConfusion h
  all_goals
    simp only [Except.ok.injEq, Prod.mk.injEq] at h
    obtain ⟨_, hst⟩ := h
    subst hst
    exact ⟨_, rfl, persistDecrypt_WF _ _ _ _ hr⟩

/-- Claim C6: every operation on a SessionRecord — `setSession`,
`archiveCurrentState`, `promoteState`, and the encrypt/decrypt paths that
invoke them — preserves well-formedness: at most one open session (all
others with `closed ≥ 0`, via base-key uniqueness), at most 2000 skipped
message keys per session across its chains (`removeOldChains` enforces the
cap by oldest-first eviction), and at most 40 archived sessions, oldest
evicted first (`removeOldSessions`). -/
theorem record_invariants_spec :
    (∀ (r : SessionRecord) (s : Session) (now : Nat), RecordWF r →
        totalMessageKeys s ≤ 2000 → RecordWF (setSession r s now)) ∧
    (∀ (r : SessionRecord) (now : Nat), RecordWF r → RecordWF (archiveCurrentState r now)) ∧
    (∀ (r : SessionRecord) (bk : Bytes) (now : Nat), RecordWF r →
        RecordWF (promoteState r bk now)) ∧
    (∀ s : Session, totalMessageKeys (removeOldChains s) ≤ 2000) ∧
    (∀ r : SessionRecord, ((removeOldSessions r).sessions.filter
        (fun s => !isOpen s)).length ≤ 40) ∧
    (∀ (store : SignalStore) (rec : SessionRecord) (pt : Bytes) (now : Nat) (res : EncResult)
        (store' : SignalStore), store.record = some rec → RecordWF rec →
        encrypt store pt now = .ok (res, store') →
        ∃ rec', store'.record = some rec' ∧ RecordWF rec') ∧
    (∀ (store : SignalStore) (body : Bytes) (freshEph : KeyPair) (now : Nat) (pt : Bytes)
        (store' : SignalStore), RecordWF (store.record.getD emptyRecord) →
        decryptPreKeyWhisperMessage store body freshEph now = .ok (pt, store') →
        ∃ rec', store'.record = some rec' ∧ RecordWF rec') ∧
    (∀ (store : SignalStore) (rec : SessionRecord) (body : Bytes) (freshEph : KeyPair)
        (now : Nat) (pt : Bytes) (store' : SignalStore), store.record = some rec →
        RecordWF rec → decryptWhisperMessage store body freshEph now = .ok (pt, store') →
        ∃ rec', store'.record = some rec' ∧ RecordWF rec') :=
  ⟨setSession_WF, archiveCurrentState_WF, promoteState_WF, removeOldChains_le,
   removeOldSessions_closed_le, encrypt_preserves_WF, decryptPreKey_preserves_WF,
   decryptWhisper_preserves_WF⟩

set_option maxRecDepth 100000 in
theorem record_invariants_spec_witness :
    RecordWF emptyRecord ∧ totalMessageKeys wSendSession ≤ 2000 ∧
    RecordWF (setSession emptyRecord wSendSession 0) ∧
    RecordWF (archiveCurrentState (setSession emptyRecord wSendSession 0) 1) :=
  ⟨by decide, by decide,
   record_invariants_spec.1 emptyRecord wSendSession 0 (by decide) (by decide),
   record_invariants_spec.2.1 (setSession emptyRecord wSendSession 0) 1
     (record_invariants_spec.1 emptyRecord wSendSession 0 (by decide) (by decide))⟩

/-! ## Duplicate-delivery lemmas -/

theorem getChainList_setChainList (l : List (Bytes × Chain)) (k : Bytes) (c : Chain) :
    (setChainList l k c).find? (fun p => decide (p.1 = k)) = some (k, c) := by
  induction l with
  | nil => simp [setChainList, List.find?]
  | cons q rest ih =>
      simp only [setChainList]
      by_cases hq : q.1 = k
      · rw [if_pos hq]
        rw [List.find?_cons_of_pos _ (by simp)]
      · rw [if_neg hq]
        rw [List.find?_cons_of_neg _ (by simp [hq])]
        exact ih

theorem getChain_setChain_self (s : Session) (k : Bytes) (c : Chain) :
    getChain (setChain s k c) k = some c := by
  simp [getChain, setChain, getChainList_setChainList]

theorem getChain_setChain_pending (s : Session) (k : Bytes) (c : Chain) :
    getChain { setChain s k c with pendingPreKey := none } k = some c :=
  getChain_setChain_self s k c

theorem maybeStepRatchet_of_isSome (s : Session) (k : Bytes) (pc : Nat) (e : KeyPair)
    (h : (getChain s k).isSome = true) : maybeStepRatchet s k pc e = s := by
  simp [maybeStepRatchet, h]

theorem lookupMessageKey_erase (l : List (Nat × MessageKeys)) (n : Nat) :
    lookupMessageKey (l.filter (fun p => decide (p.1 ≠ n))) n = none := by
  simp only [lookupMessageKey]
  rw [List.find?_eq_none.mpr]
  · rfl
  · intro p hp
    have hne := (List.mem_filter.mp hp).2
    simp only [decide_eq_true_eq] at hne ⊢
    simpa using hne

theorem decryptWithSession_ok_inv (ourIdent : Bytes) (s : Session) (m : WhisperMessage)
    (proto mac : Bytes) (e1 : KeyPair) (pt : Bytes) (s' : Session)
    (h : decryptWithSession ourIdent s m proto mac e1 = .ok (pt, s')) :
    ∃ c', getChain s' m.ratchetKey = some c' ∧ m.counter < c'.chainKey.counter ∧
      lookupMessageKey c'.messageKeys m.counter = none := by
  simp only [decryptWithSession] at h
  repeat' split at h
  all_goals try exact Except.noConfusion h
  all_goals
    simp only [Except.ok.injEq, Prod.mk.injEq] at h
    obtain ⟨hpt, hs'⟩ := h
    subst hs'
    refine ⟨_, getChain_setChain_pending _ _ _, ?_, lookupMessageKey_erase _ _⟩
    dsimp only
    first
      | omega
      | (rw [fillMessageKeys_counter]; omega)

/-- Claim C2: a ciphertext that decrypts successfully fails with
`MessageCounterError` when decrypted a second time against the updated
session: `decryptWithSession` deletes the cached skipped message key it
uses, so the repeated counter sits below the chain counter and finds no
cached entry. -/
theorem duplicate_decrypt_spec (ourIdent : Bytes) (s : Session) (m : WhisperMessage)
    (proto mac : Bytes) (e1 e2 : KeyPair) (pt : Bytes) (s' : Session)
    (h : decryptWithSession ourIdent s m proto mac e1 = .ok (pt, s')) :
    decryptWithSession ourIdent s' m proto mac e2 = .error .messageCounter := by
  obtain ⟨c', hg, hlt, hnone⟩ := decryptWithSession_ok_inv ourIdent s m proto mac e1 pt s' h
  simp only [decryptWithSession]
  rw [maybeStepRatchet_of_isSome s' m.ratchetKey m.previousCounter e2 (by rw [hg]; rfl)]
  simp only [hg]
  rw [if_neg (by omega)]
  rw [if_pos hlt]
  simp only [hnone]

set_option maxRecDepth 100000 in
theorem duplicate_decrypt_spec_witness :
    (decryptWithSession (prefixPub (pubOf 5)) wSession wMsg (encodeProto wMsg) wMac (kp 30) =
      .ok (dwsBytes wDecRes, dwsSession wDecRes)) ∧
    decryptWithSession (prefixPub (pubOf 5)) (dwsSession wDecRes) wMsg (encodeProto wMsg) wMac
      (kp 31) = .error .messageCounter :=
  ⟨by decide,
   duplicate_decrypt_spec (prefixPub (pubOf 5)) wSession wMsg (encodeProto wMsg) wMac (kp 30)
     (kp 31) (dwsBytes wDecRes) (dwsSession wDecRes) (by decide)⟩

/-! ## Codec round-trip lemmas -/

theorem take_len_append (l1 l2 : Bytes) (n : Nat) (h : l1.length = n) :
    (l1 ++ l2).take n = l1 := by
  subst h
  exact List.take_left l1 l2

theorem drop_len_append (l1 l2 : Bytes) (n : Nat) (h : l1.length = n) :
    (l1 ++ l2).drop n = l2 := by
  subst h
  exact List.drop_left l1 l2

theorem drop_add_append (l1 l2 : Bytes) (n k : Nat) (h : l1.length = n) :
    (l1 ++ l2).drop (n + k) = l2.drop k := by
  subst h
  induction l1 with
  | nil => simp
  | cons a t ih => simpa [Nat.succ_add] using ih

theorem decodeWhisperMessage_cons (v : Nat) (rest : Bytes) :
    decodeWhisperMessage (v :: rest) =
      if v / 16 < 3 then .error .structural
      else if rest.length < 49 then .error .structural
      else .ok (⟨(rest.take (rest.length - 8)).take 33,
            bytesToNatLE (((rest.take (rest.length - 8)).drop 33).take 4),
            bytesToNatLE (((rest.take (rest.length - 8)).drop 37).take 4),
            (rest.take (rest.length - 8)).drop 41⟩,
          rest.take (rest.length - 8), rest.drop (rest.length - 8)) := rfl

theorem decodePreKeyWhisperMessage_cons (v : Nat) (rest : Bytes) :
    decodePreKeyWhisperMessage (v :: rest) =
      if v / 16 < 3 then .error .structural
      else if rest.length < 79 then .error .structural
      else .ok ⟨bytesToNatLE (rest.take 4),
           (if (rest.drop 4).take 1 = [1] then some (bytesToNatLE ((rest.drop 5).take 4))
            else none),
           bytesToNatLE ((rest.drop 9).take 4),
           (rest.drop 13).take 33,
           (rest.drop 46).take 33,
           rest.drop 79⟩ := rfl

theorem encodePreKey_some (reg pk sid : Nat) (bk ik msg : Bytes) :
    encodePreKeyWhisperMessage ⟨reg, some pk, sid, bk, ik, msg⟩ =
      versionByte :: natToBytes4 reg ++ (1 :: natToBytes4 pk) ++ natToBytes4 sid ++
        bk ++ ik ++ msg := rfl

theorem decodeWhisper_encode (senderIdent recvIdent macKey : Bytes) (m : WhisperMessage)
    (hrk : m.ratchetKey.length = 33) (hc : m.counter < 4294967296)
    (hpc : m.previousCounter < 4294967296) :
    decodeWhisperMessage (encodeWhisperMessage senderIdent recvIdent macKey m) =
      .ok (m, encodeProto m, whisperMac senderIdent recvIdent macKey (encodeProto m)) := by
  obtain ⟨rk, c, pc, ct⟩ := m
  simp only at hrk hc hpc
  have hassoc : encodeProto ⟨rk, c, pc, ct⟩ =
      rk ++ (natToBytes4 c ++ (natToBytes4 pc ++ ct)) := by
    simp [encodeProto, List.append_assoc]
  have hplen : (encodeProto ⟨rk, c, pc, ct⟩).length = 41 + ct.length := by
    rw [hassoc]
    simp [List.length_append, natToBytes4_length, hrk]
    omega
  have hmlen :
      (whisperMac senderIdent recvIdent macKey (encodeProto ⟨rk, c, pc, ct⟩)).length = 8 :=
    whisperMac_length _ _ _ _
  rw [encodeWhisperMessage]
  simp only [List.cons_append]
  rw [decodeWhisperMessage_cons]
  rw [if_neg (by norm_num [versionByte, currentVersion])]
  rw [if_neg (by rw [List.length_append, hplen, hmlen]; omega)]
  have hsub : (encodeProto ⟨rk, c, pc, ct⟩ ++
      whisperMac senderIdent recvIdent macKey (encodeProto ⟨rk, c, pc, ct⟩)).length - 8 =
      (encodeProto ⟨rk, c, pc, ct⟩).length := by
    rw [List.length_append, hmlen]
    omega
  rw [hsub, List.take_left, List.drop_left]

  rw [hassoc]
  rw [take_len_append _ _ 33 hrk]
  rw [drop_len_append _ _ 33 hrk]
  rw [take_len_append _ _ 4 (natToBytes4_length c)]
  rw [show (37 : Nat) = 33 + 4 from rfl, drop_add_append _ _ 33 4 hrk]
  rw [drop_len_append _ _ 4 (natToBytes4_length c)]
  rw [take_len_append _ _ 4 (natToBytes4_length pc)]
  rw [show (41 : Nat) = 33 + 8 from rfl, drop_add_append _ _ 33 8 hrk]
  rw [show (8 : Nat) = 4 + 4 from rfl, drop_add_append _ _ 4 4 (natToBytes4_length c)]
  rw [drop_len_append _ _ 4 (natToBytes4_length pc)]
  rw [bytesToNatLE_natToBytes4 c hc, bytesToNatLE_natToBytes4 pc hpc]

theorem decodePreKey_encode (m : PreKeyWhisperMessage) (pk : Nat)
    (hpk : m.preKeyId = some pk)
    (hreg : m.registrationId < 4294967296) (hpkid : pk < 4294967296)
    (hsid : m.signedPreKeyId < 4294967296)
    (hbk : m.baseKey.length = 33) (hik : m.identityKey.length = 33) :
    decodePreKeyWhisperMessage (encodePreKeyWhisperMessage m) = .ok m := by
  obtain ⟨reg, pkid0, sid, bk, ik, msg⟩ := m
  simp only at hpk hreg hsid hbk hik
  subst hpk
  have hassoc : natToBytes4 reg ++ (1 :: natToBytes4 pk) ++ natToBytes4 sid ++ bk ++ ik ++ msg =
      natToBytes4 reg ++ ((1 :: natToBytes4 pk) ++ (natToBytes4 sid ++ (bk ++ (ik ++ msg)))) := by
    simp [List.append_assoc]
  rw [encodePreKey_some]
  simp only [List.cons_append]
  rw [decodePreKeyWhisperMessage_cons]
  rw [hassoc]
  have hlen : (natToBytes4 reg ++ ((1 :: natToBytes4 pk) ++
      (natToBytes4 sid ++ (bk ++ (ik ++ msg))))).length = 79 + msg.length := by
    simp [List.length_append, natToBytes4_length, hbk, hik]
    omega
  rw [if_neg (by norm_num [versionByte, currentVersion])]
  rw [if_neg (by rw [hlen]; omega)]
  rw [take_len_append _ _ 4 (natToBytes4_length reg)]
  rw [drop_len_append _ _ 4 (natToBytes4_length reg)]
  rw [show ((1 :: natToBytes4 pk) ++ (natToBytes4 sid ++ (bk ++ (ik ++ msg)))).take 1 =
        [1] from by simp]
  rw [if_pos rfl]
  rw [show (5 : Nat) = 4 + 1 from rfl, drop_add_append _ _ 4 1 (natToBytes4_length reg)]
  rw [show ((1 :: natToBytes4 pk) ++ (natToBytes4 sid ++ (bk ++ (ik ++ msg)))).drop 1 =
        natToBytes4 pk ++ (natToBytes4 sid ++ (bk ++ (ik ++ msg))) from by simp]
  rw [take_len_append _ _ 4 (natToBytes4_length pk)]
  rw [show (9 : Nat) = 4 + 5 from rfl, drop_add_append _ _ 4 5 (natToBytes4_length reg)]
  rw [show ((1 :: natToBytes4 pk) ++ (natToBytes4 sid ++ (bk ++ (ik ++ msg)))).drop 5 =
        (natToBytes4 pk ++ (natToBytes4 sid ++ (bk ++ (ik ++ msg)))).drop 4 from by simp]
  rw [drop_len_append _ _ 4 (natToBytes4_length pk)]
  rw [take_len_append _ _ 4 (natToBytes4_length sid)]
  rw [show (13 : Nat) = 4 + 9 from rfl, drop_add_append _ _ 4 9 (natToBytes4_length reg)]
  rw [show ((1 :: natToBytes4 pk) ++ (natToBytes4 sid ++ (bk ++ (ik ++ msg)))).drop 9 =
        (natToBytes4 pk ++ (natToBytes4 sid ++ (bk ++ (ik ++ msg)))).drop 8 from by simp]
  rw [show (8 : Nat) = 4 + 4 from rfl, drop_add_append _ _ 4 4 (natToBytes4_length pk)]
  rw [drop_len_append _ _ 4 (natToBytes4_length sid)]
  rw [take_len_append _ _ 33 hbk]
  rw [show (46 : Nat) = 4 + 42 from rfl, drop_add_append _ _ 4 42 (natToBytes4_length reg)]
  rw [show ((1 :: natToBytes4 pk) ++ (natToBytes4 sid ++ (bk ++ (ik ++ msg)))).drop 42 =
        (natToBytes4 pk ++ (natToBytes4 sid ++ (bk ++ (ik ++ msg)))).drop 41 from by simp]
  rw [show (41 : Nat) = 4 + 37 from rfl, drop_add_append _ _ 4 37 (natToBytes4_length pk)]
  rw [show (37 : Nat) = 4 + 33 from rfl, drop_add_append _ _ 4 33 (natToBytes4_length sid)]
  rw [drop_len_append _ _ 33 hbk]
  rw [take_len_append _ _ 33 hik]
  rw [show (79 : Nat) = 4 + 75 from rfl, drop_add_append _ _ 4 75 (natToBytes4_length reg)]
  rw [show ((1 :: natToBytes4 pk) ++ (natToBytes4 sid ++ (bk ++ (ik ++ msg)))).drop 75 =
        (natToBytes4 pk ++ (natToBytes4 sid ++ (bk ++ (ik ++ msg)))).drop 74 from by simp]
  rw [show (74 : Nat) = 4 + 70 from rfl, drop_add_append _ _ 4 70 (natToBytes4_length pk)]
  rw [show (70 : Nat) = 4 + 66 from rfl, drop_add_append _ _ 4 66 (natToBytes4_length sid)]
  rw [show (66 : Nat) = 33 + 33 from rfl, drop_add_append _ _ 33 33 hbk]
  rw [drop_len_append _ _ 33 hik]
  rw [bytesToNatLE_natToBytes4 reg hreg, bytesToNatLE_natToBytes4 pk hpkid,
    bytesToNatLE_natToBytes4 sid hsid]

/-! ## Round-trip stage lemmas -/

theorem setSession_empty (s : Session) (now : Nat) (hopen : isOpen s = true) :
    setSession emptyRecord s now = ⟨[s]⟩ := by
  simp [setSession, emptyRecord, getOpenSession, List.find?, removeOldSessions,
    List.filter, hopen]

theorem isOpen_buildInitiator (ourIdentity : KeyPair) (bundle : PreKeyBundle)
    (baseKey freshEph : KeyPair) :
    isOpen (buildInitiatorSession ourIdentity bundle baseKey freshEph) = true := by
  simp [isOpen, buildInitiatorSession]

theorem c1_stage1 (ai ab ae bi bs bo sid pkid breg areg : Nat) :
    initOutgoing (c1AliceStore ai areg) (c1Bundle bi bs bo sid pkid breg) (kp ab) (kp ae) 0 =
      .ok (c1Store1 ai ab ae bi bs bo sid pkid breg areg) := by
  have hver := verifyXEd_signXEd bi (prefixPub (pubOf bs))
  simp only [initOutgoing]
  rw [if_neg (by simp [c1Bundle, hver])]
  rw [if_neg (by simp [c1AliceStore])]
  rw [show (c1AliceStore ai areg).record = none from rfl]
  rw [show Option.getD (none : Option SessionRecord) emptyRecord = emptyRecord from rfl]
  rw [setSession_empty _ 0 (isOpen_buildInitiator _ _ _ _)]
  rfl

theorem c1_stage2 (ai ab ae bi bs bo sid pkid breg areg : Nat) (pt : Bytes) :
    encrypt (c1Store1 ai ab ae bi bs bo sid pkid breg areg) pt 0 =
      .ok (⟨3, c1Body ai ab ae bi bs bo sid pkid areg pt, breg⟩,
        encStore (encrypt (c1Store1 ai ab ae bi bs bo sid pkid breg areg) pt 0)) := by
  simp [encrypt, encryptWithSession, encStore, c1Store1, c1AliceStore, c1SessionA,
    buildInitiatorSession, c1Bundle, c1Body, c1Outer, c1Inner, c1Msg, c1MK, c1SendCK,
    getOpenSession, getChain, setChain, setChainList, isOpen, List.find?, chainStep, kp,
    Option.map]

theorem c1_stage3 (ai ab ae bi bs bo sid pkid breg areg be : Nat) (pt : Bytes)
    (hpt : ∀ x ∈ pt, x < 256)
    (hne1 : pubOf ae ≠ pubOf ab) (hne2 : pubOf bs ≠ pubOf ae) (hne3 : pubOf be ≠ pubOf ae)
    (hareg : areg < 4294967296) (hsid : sid < 4294967296) (hpkid : pkid < 4294967296) :
    decryptPreKeyWhisperMessage (c1BobStore bi bs bo sid pkid breg)
      (c1Body ai ab ae bi bs bo sid pkid areg pt) (kp be) 0 =
      .ok (pt, pkdStore (decryptPreKeyWhisperMessage (c1BobStore bi bs bo sid pkid breg)
        (c1Body ai ab ae bi bs bo sid pkid areg pt) (kp be) 0)) := by
  have hKab : ¬ (prefixPub (pubOf ae) = prefixPub (pubOf ab)) :=
    fun hh => hne1 (prefixPub_inj_pubOf _ _ hh)
  have hKsb : ¬ (prefixPub (pubOf ae) = prefixPub (pubOf bs)) :=
    fun hh => hne2 (prefixPub_inj_pubOf _ _ hh).symm
  have hKbe : ¬ (prefixPub (pubOf ae) = prefixPub (pubOf be)) :=
    fun hh => hne3 (prefixPub_inj_pubOf _ _ hh).symm
  have hdh : dh bs (pubOf ae) = dh ae (pubOf bs) := dh_comm bs ae
  have hmaster := responderMasterSecret_mirror ai ab bi bs (some bo)
  simp only [Option.map, kp] at hmaster
  have haes : aesCbcDecrypt (c1MK ai ab ae bi bs bo).cipherKey (c1MK ai ab ae bi bs bo).iv
      (aesCbcEncrypt (c1MK ai ab ae bi bs bo).cipherKey (c1MK ai ab ae bi bs bo).iv pt) = pt :=
    aesCbc_roundtrip _ _ _ hpt
  have hdec1 : decodePreKeyWhisperMessage (c1Body ai ab ae bi bs bo sid pkid areg pt) =
      .ok (c1Outer ai ab ae bi bs bo sid pkid areg pt) :=
    decodePreKey_encode _ pkid rfl hareg hpkid hsid (prefixPub_length _) (prefixPub_length _)
  have hdec2 : decodeWhisperMessage (c1Inner ai ab ae bi bs bo pt) =
      .ok (c1Msg ai ab ae bi bs bo pt, encodeProto (c1Msg ai ab ae bi bs bo pt),
        whisperMac (prefixPub (pubOf ai)) (prefixPub (pubOf bi))
          (c1MK ai ab ae bi bs bo).macKey (encodeProto (c1Msg ai ab ae bi bs bo pt))) :=
    decodeWhisper_encode _ _ _ _ (prefixPub_length _) (by norm_num [c1Msg])
      (by norm_num [c1Msg])
  simp only [c1Inner, c1Msg, c1MK, c1SendCK, kp] at haes hdec2
  simp only [decryptPreKeyWhisperMessage, hdec1]
  simp [initIncoming, c1BobStore, c1Outer, c1Inner, c1Msg, c1MK, c1SendCK, kp, Option.map,
    lookupKey, List.find?, getSessionByBaseKey, emptyRecord, Option.getD,
    buildResponderSession, hdec2, decryptWithSession, maybeStepRatchet, getChain, setChain,
    setChainList, stripPub_prefixPub_pubOf, hdh, hmaster, hKab, hKsb, hKbe,
    fillMessageKeys, fillLoop, chainStep, lookupMessageKey, haes, pkdStore,
    removeOldChains, removeOldChainsLoop, totalMessageKeys, setSession, getOpenSession,
    isOpen, removeOldSessions, List.filter]

/-- Claim C1: for every plaintext of bytes and two parties with fresh,
honestly generated bundles (distinct fresh ephemerals, ids in `u32` range),
if Alice runs `SessionBuilder.initOutgoing` on Bob's bundle and then
`SessionCipher.encrypt(P)`, the ciphertext has wire type 3 and Bob's
corresponding decrypt operation, `decryptPreKeyWhisperMessage`, returns
exactly `P`. -/
theorem roundtrip_spec (ai ab ae bi bs bo sid pkid breg areg be : Nat) (pt : Bytes)
    (hpt : ∀ x ∈ pt, x < 256)
    (hne1 : pubOf ae ≠ pubOf ab) (hne2 : pubOf bs ≠ pubOf ae) (hne3 : pubOf be ≠ pubOf ae)
    (hareg : areg < 4294967296) (hsid : sid < 4294967296) (hpkid : pkid < 4294967296) :
    initOutgoing (c1AliceStore ai areg) (c1Bundle bi bs bo sid pkid breg) (kp ab) (kp ae) 0 =
      .ok (c1Store1 ai ab ae bi bs bo sid pkid breg areg) ∧
    encrypt (c1Store1 ai ab ae bi bs bo sid pkid breg areg) pt 0 =
      .ok (⟨3, c1Body ai ab ae bi bs bo sid pkid areg pt, breg⟩,
        encStore (encrypt (c1Store1 ai ab ae bi bs bo sid pkid breg areg) pt 0)) ∧
    decryptPreKeyWhisperMessage (c1BobStore bi bs bo sid pkid breg)
      (c1Body ai ab ae bi bs bo sid pkid areg pt) (kp be) 0 =
      .ok (pt, pkdStore (decryptPreKeyWhisperMessage (c1BobStore bi bs bo sid pkid breg)
        (c1Body ai ab ae bi bs bo sid pkid areg pt) (kp be) 0)) :=
  ⟨c1_stage1 ai ab ae bi bs bo sid pkid breg areg,
   c1_stage2 ai ab ae bi bs bo sid pkid breg areg pt,
   c1_stage3 ai ab ae bi bs bo sid pkid breg areg be pt hpt hne1 hne2 hne3 hareg hsid hpkid⟩

set_option maxRecDepth 1000000 in
theorem roundtrip_spec_witness :
    (∀ x ∈ [104, 105, 33], x < 256) ∧ pubOf 6 ≠ pubOf 4 ∧ pubOf 8 ≠ pubOf 6 ∧
    pubOf 10 ≠ pubOf 6 ∧
    decryptPreKeyWhisperMessage (c1BobStore 5 8 9 1 1001 200)
      (c1Body 3 4 6 5 8 9 1 1001 100 [104, 105, 33]) (kp 10) 0 =
      .ok ([104, 105, 33], pkdStore (decryptPreKeyWhisperMessage (c1BobStore 5 8 9 1 1001 200)
        (c1Body 3 4 6 5 8 9 1 1001 100 [104, 105, 33]) (kp 10) 0)) :=
  ⟨by decide, by decide, by decide, by decide,
   (roundtrip_spec 3 4 6 5 8 9 1 1001 200 100 10 [104, 105, 33] (by decide) (by decide)
     (by decide) (by decide) (by decide) (by decide) (by decide)).2.2⟩

end Libsignal
